import Mathlib

/-!
# Charge-current vote arbiter and thermal / step-charge state machines

A shallow embedding of `drivers/power/lge_battery.c`.

* C `int` values are `Int`; no arithmetic in the modelled functions can
  overflow apart from the band index, whose range is tracked explicitly.
* The static array `bm_vote_fcc_table` and the fields of
  `struct battery_manager` that the modelled functions touch form `State`.
* A call to `bm_set_property` is an external effect.  The return code that
  the power-supply core gives to such a call is a parameter of the function
  that issues it, and every call is appended to `State.log`, together with
  every entry into `bm_vote_fcc`, so that theorems can count them.
* An array access outside `therm_table` is undefined behaviour and makes
  `bm_check_therm_charging` return `none`; `therm_walk_indices` lists the
  positions the band walk indexes.
* `bm->fb_state` and the mask `BL_CORE_FBBLANK` of `<linux/backlight.h>` are
  parameters of `bm_fb_update_work`.
-/

namespace LgeBattery

/-! ## Constants -/

def EINVAL : Int := 22
def INT_MAX : Int := 2147483647
def INT_MIN : Int := -2147483648

def NORM_VOLT : Int := 4400000
def LIM_VOLT : Int := 4100000
def SC_VOLT : Int := 4200000
def CHG_CURRENT_MAX : Int := 3550000
def SC_CURRENT : Int := 2400000
def LCD_ON_CURRENT : Int := 1000000

/-- Values of `enum bm_vote_reason`. -/
def BM_REASON_DEFAULT : Nat := 0
def BM_REASON_LCD : Nat := 1
def BM_REASON_STEP : Nat := 2
def BM_REASON_THERM : Nat := 3
def BM_REASON_MAX : Nat := 4

/-- Values of `enum bm_therm_states`. -/
def BM_HEALTH_COLD : Int := 0
def BM_HEALTH_COOL : Int := 1
def BM_HEALTH_GOOD : Int := 2
def BM_HEALTH_WARM : Int := 3
def BM_HEALTH_HOT : Int := 4
def BM_HEALTH_MAX : Nat := 5

/-! ## Data model -/

/-- One row of `therm_table` (`struct bm_therm_table`). -/
structure bm_therm_table where
  min : Int
  max : Int
  cur : Int
  deriving DecidableEq, Repr

/-- The static array `therm_table[BM_HEALTH_MAX]`. -/
def therm_table : List bm_therm_table :=
  [ { min := INT_MIN, max := 20, cur := 0 },
    { min := 0, max := 220, cur := 710000 },
    { min := 200, max := 450, cur := -EINVAL },
    { min := 430, max := 550, cur := 710000 },
    { min := 530, max := INT_MAX, cur := 0 } ]

/-- Read of `therm_table[stat]`; `none` when `stat` is outside the array. -/
def therm_table_at (stat : Int) : Option bm_therm_table :=
  if 0 ≤ stat then therm_table.get? stat.toNat else none

/-- The properties the modelled code writes through `bm_set_property`. -/
inductive power_supply_property where
  | VOLTAGE_MAX
  | CONSTANT_CHARGE_CURRENT_MAX
  deriving DecidableEq, Repr

/-- Observable events: a `bm_set_property` call on the battery supply, and an
entry into `bm_vote_fcc`. -/
inductive Event where
  | set_property (prop : power_supply_property) (value : Int)
  | vote_fcc (reason : Nat) (fcc : Int)
  deriving DecidableEq, Repr

/-- The mutable data of the driver: the static `bm_vote_fcc_table`, the fields
of `struct battery_manager` used by the arbiter and the two state machines,
and the event log. -/
structure State where
  bm_vote_fcc_table : List Int
  therm_stat : Int
  chg_present : Int
  batt_temp : Int
  bm_vote_fcc_reason : Int
  bm_vote_fcc_value : Int
  sc_status : Bool
  log : List Event
  deriving DecidableEq, Repr

/-- The static initialiser of `bm_vote_fcc_table`. -/
def bm_vote_fcc_table_init : List Int :=
  [CHG_CURRENT_MAX, -EINVAL, -EINVAL, -EINVAL]

/-- The state after `devm_kzalloc` and the assignments of `bm_init`, before its
first `bm_check_therm_charging`; `batt_temp` and `chg_present` are what the
initial property reads gave. -/
def bm_init_state (batt_temp chg_present : Int) : State :=
  { bm_vote_fcc_table := bm_vote_fcc_table_init
    therm_stat := BM_HEALTH_GOOD
    chg_present := chg_present
    batt_temp := batt_temp
    bm_vote_fcc_reason := -EINVAL
    bm_vote_fcc_value := -EINVAL
    sc_status := false
    log := [] }

/-! ## The current-vote arbiter -/

/-- Body of the `for` loop of `bm_vote_fcc_update` at index `i`; the
accumulator is `(fcc, reason)`. -/
def fcc_scan_step (table : List Int) (acc : Int × Int) (i : Nat) : Int × Int :=
  if table.getD i 0 = -EINVAL then acc
  else if acc.1 > table.getD i 0 then (table.getD i 0, (i : Int))
  else acc

/-- The `for (i = 0; i < BM_REASON_MAX; i++)` loop of `bm_vote_fcc_update`,
started from `fcc = INT_MAX`, `reason = -EINVAL`. -/
def fcc_scan (table : List Int) : Int × Int :=
  (List.range BM_REASON_MAX).foldl (fcc_scan_step table) (INT_MAX, -EINVAL)

/-- Model of `bm_vote_fcc_update`.  `hw_rc` is the return code of the
`bm_set_property` call, should one be issued. -/
def bm_vote_fcc_update (hw_rc : Int) (s : State) : Int × State :=
  let fcc := (fcc_scan s.bm_vote_fcc_table).1
  let reason := (fcc_scan s.bm_vote_fcc_table).2
  if reason ≠ s.bm_vote_fcc_reason ∨ fcc ≠ s.bm_vote_fcc_value then
    if fcc ≠ s.bm_vote_fcc_value then
      let s1 := { s with log := s.log ++
        [Event.set_property power_supply_property.CONSTANT_CHARGE_CURRENT_MAX fcc] }
      if hw_rc < 0 then (hw_rc, s1)
      else (hw_rc, { s1 with bm_vote_fcc_reason := reason, bm_vote_fcc_value := fcc })
    else (0, { s with bm_vote_fcc_reason := reason, bm_vote_fcc_value := fcc })
  else (0, s)

/-- Model of `bm_vote_fcc`. -/
def bm_vote_fcc (hw_rc : Int) (s : State) (reason : Nat) (fcc : Int) : Int × State :=
  let s0 := { s with
    log := s.log ++ [Event.vote_fcc reason fcc]
    bm_vote_fcc_table := s.bm_vote_fcc_table.set reason fcc }
  let r := bm_vote_fcc_update hw_rc s0
  if r.1 < 0 then
    (r.1, { r.2 with bm_vote_fcc_table := r.2.bm_vote_fcc_table.set reason (-EINVAL) })
  else r

/-- Model of `bm_vote_fcc_get`. -/
def bm_vote_fcc_get (s : State) : Int :=
  if s.bm_vote_fcc_reason = -EINVAL then -EINVAL
  else s.bm_vote_fcc_table.getD s.bm_vote_fcc_reason.toNat 0

/-! ## The thermal state machine -/

/-- The band walk of `bm_check_therm_charging`: `n` is the number of loop
iterations left (`BM_HEALTH_MAX - i`).  `none` is an access outside
`therm_table`. -/
def therm_walk (temp : Int) : Nat → Int → Option Int
  | 0, stat => some stat
  | n + 1, stat =>
    match therm_table_at stat with
    | none => none
    | some band =>
      if temp < band.min then therm_walk temp n (stat - 1)
      else if temp ≥ band.max then therm_walk temp n (stat + 1)
      else some stat

/-- Model of `bm_check_therm_charging`.  `rc_volt` is the return code of the
`VOLTAGE_MAX` write and `rc_cur` that of the current write made by
`bm_vote_fcc`, should either be issued. -/
def bm_check_therm_charging (rc_volt rc_cur : Int) (s : State) : Option State :=
  match therm_walk s.batt_temp BM_HEALTH_MAX s.therm_stat with
  | none => none
  | some stat =>
    if s.therm_stat ≠ stat then
      match therm_table_at stat with
      | none => none
      | some band =>
        let r : Int × State :=
          if s.therm_stat ≤ BM_HEALTH_GOOD ∧ stat ≥ BM_HEALTH_WARM then
            (rc_volt, { s with log := s.log ++
              [Event.set_property power_supply_property.VOLTAGE_MAX LIM_VOLT] })
          else if s.therm_stat ≥ BM_HEALTH_WARM ∧ stat ≤ BM_HEALTH_GOOD then
            (rc_volt, { s with log := s.log ++
              [Event.set_property power_supply_property.VOLTAGE_MAX NORM_VOLT] })
          else (0, s)
        if r.1 < 0 then some r.2
        else
          let v := bm_vote_fcc rc_cur r.2 BM_REASON_THERM band.cur
          if v.1 < 0 then some v.2
          else some { v.2 with therm_stat := stat }
    else some s

/-! ## The step-charge latch -/

/-- Model of `bm_check_step_charging`. -/
def bm_check_step_charging (hw_rc : Int) (s : State) (volt : Int) : State :=
  if s.chg_present = 0 then
    if s.sc_status then
      let v := bm_vote_fcc hw_rc s BM_REASON_STEP (-EINVAL)
      if v.1 < 0 then v.2
      else { v.2 with sc_status := false }
    else s
  else if s.sc_status = false ∧ volt ≥ SC_VOLT then
    let v := bm_vote_fcc hw_rc s BM_REASON_STEP SC_CURRENT
    if v.1 < 0 then v.2
    else { v.2 with sc_status := true }
  else s

/-! ## The display trigger -/

/-- Model of `bm_fb_update_work`.  `fb_state` is the value of `bm->fb_state`
that the notifier stored before scheduling the work; the mask
`BL_CORE_FBBLANK` comes from `<linux/backlight.h>`, which is not part of the
modelled file, and is a parameter. -/
def bm_fb_update_work (BL_CORE_FBBLANK fb_state : Nat) (hw_rc : Int) (s : State) : State :=
  if fb_state &&& BL_CORE_FBBLANK = 0 then
    (bm_vote_fcc hw_rc s BM_REASON_LCD LCD_ON_CURRENT).2
  else
    (bm_vote_fcc hw_rc s BM_REASON_LCD (-EINVAL)).2

/-! ## Call sequences and specification-side predicates -/


/-- Slot `i` of the vote table holds a vote (is not `-EINVAL`). -/
def present (table : List Int) (i : Nat) : Prop :=
  i < BM_REASON_MAX ∧ table.getD i 0 ≠ -EINVAL

instance (table : List Int) (i : Nat) : Decidable (present table i) := by
  unfold present; infer_instance

/-- The loop of `bm_vote_fcc_update` cut after its first `n` iterations. -/
def fcc_scan_upto (table : List Int) (n : Nat) : Int × Int :=
  (List.range n).foldl (fcc_scan_step table) (INT_MAX, -EINVAL)

/-- One call `bm_vote_fcc(reason, fcc)`; `hw_rc` is the return code the hardware
gives to the current write, should the call issue one. -/
structure VoteCall where
  reason : Nat
  fcc : Int
  hw_rc : Int
  deriving DecidableEq, Repr

/-- The state after a sequence of `bm_vote_fcc` calls. -/
def run_votes (s : State) (calls : List VoteCall) : State :=
  calls.foldl (fun st c => (bm_vote_fcc c.hw_rc st c.reason c.fcc).2) s

/-- In words of the specification: `v` is the minimum of the present entries. -/
def is_min_present (table : List Int) (v : Int) : Prop :=
  (∃ i, present table i ∧ table.getD i 0 = v) ∧
  ∀ j, present table j → v ≤ table.getD j 0

/-- In words of the specification: `r` is the lowest reason index whose entry
is present and equal to `v`. -/
def is_lowest_reason (table : List Int) (v r : Int) : Prop :=
  ∃ i : Nat, r = (i : Int) ∧ present table i ∧ table.getD i 0 = v ∧
    ∀ j, j < i → present table j → table.getD j 0 ≠ v

/-- Invariant of the arbiter under votes that are non-negative or `-EINVAL`:
the Default slot holds `CHG_CURRENT_MAX`, and the recorded value is at most
every present entry. -/
def vote_inv (s : State) : Prop :=
  ∃ b c d : Int, s.bm_vote_fcc_table = [CHG_CURRENT_MAX, b, c, d] ∧
    (0 ≤ b ∨ b = -EINVAL) ∧ (0 ≤ c ∨ c = -EINVAL) ∧ (0 ≤ d ∨ d = -EINVAL) ∧
    s.bm_vote_fcc_value ≤ CHG_CURRENT_MAX ∧
    (b ≠ -EINVAL → s.bm_vote_fcc_value ≤ b) ∧
    (c ≠ -EINVAL → s.bm_vote_fcc_value ≤ c) ∧
    (d ≠ -EINVAL → s.bm_vote_fcc_value ≤ d)

/-- The calls C1 ranges over: reason LCD, STEP or THERM, value non-negative or
`-EINVAL`. -/
def valid_vote (c : VoteCall) : Prop :=
  (c.reason = BM_REASON_LCD ∨ c.reason = BM_REASON_STEP ∨ c.reason = BM_REASON_THERM) ∧
  (0 ≤ c.fcc ∨ c.fcc = -EINVAL)

instance (c : VoteCall) : Decidable (valid_vote c) := by
  unfold valid_vote; infer_instance

/-- The events logged between state `s` and a later state `t`. -/
def events_since (s t : State) : List Event :=
  t.log.drop s.log.length

/-- An event is a hardware write of the charge-current limit. -/
def is_current_write : Event → Bool
  | Event.set_property power_supply_property.CONSTANT_CHARGE_CURRENT_MAX _ => true
  | _ => false

/-- An event is a hardware write of the voltage ceiling. -/
def is_voltage_write : Event → Bool
  | Event.set_property power_supply_property.VOLTAGE_MAX _ => true
  | _ => false

/-- An event is a `bm_set_property` call. -/
def is_set_property : Event → Bool
  | Event.set_property _ _ => true
  | _ => false

/-- An event is an entry into `bm_vote_fcc`. -/
def is_vote : Event → Bool
  | Event.vote_fcc _ _ => true
  | _ => false

/-- One temperature reading handed to `bm_check_therm_charging`, with the
return codes the hardware gives to the voltage and current writes. -/
structure ThermReading where
  temp : Int
  rc_volt : Int
  rc_cur : Int
  deriving DecidableEq, Repr

/-- The state after a sequence of readings, each stored in `batt_temp` and
followed by `bm_check_therm_charging`. -/
def run_therm : State → List ThermReading → Option State
  | s, [] => some s
  | s, r :: rs =>
    match bm_check_therm_charging r.rc_volt r.rc_cur { s with batt_temp := r.temp } with
    | none => none
    | some t => run_therm t rs

/-- One call `bm_check_step_charging(bm, volt)` made with `bm->chg_present` as
given, and the return code the hardware gives to the current write. -/
structure StepCall where
  chg_present : Int
  volt : Int
  hw_rc : Int
  deriving DecidableEq, Repr

/-- The state after a sequence of `bm_check_step_charging` calls. -/
def run_step (s : State) (calls : List StepCall) : State :=
  calls.foldl
    (fun st c => bm_check_step_charging c.hw_rc { st with chg_present := c.chg_present } c.volt) s

/-- The voltage write `bm_check_therm_charging` makes on a transition from
band `old` to band `new`, as a list of events (empty when none is made). -/
def voltage_events (old new : Int) : List Event :=
  if old ≤ BM_HEALTH_GOOD ∧ new ≥ BM_HEALTH_WARM then
    [Event.set_property power_supply_property.VOLTAGE_MAX LIM_VOLT]
  else if old ≥ BM_HEALTH_WARM ∧ new ≤ BM_HEALTH_GOOD then
    [Event.set_property power_supply_property.VOLTAGE_MAX NORM_VOLT]
  else []

/-- The step latch is engaged: `sc_status` is set and the Step slot holds
`SC_CURRENT`. -/
def step_engaged (s : State) : Prop :=
  s.sc_status = true ∧ s.bm_vote_fcc_table.getD BM_REASON_STEP 0 = SC_CURRENT

/-- The step latch is released: `sc_status` is clear and the Step slot is
absent. -/
def step_released (s : State) : Prop :=
  s.sc_status = false ∧ s.bm_vote_fcc_table.getD BM_REASON_STEP 0 = -EINVAL

instance (s : State) : Decidable (step_engaged s) := by
  unfold step_engaged; infer_instance

instance (s : State) : Decidable (step_released s) := by
  unfold step_released; infer_instance

/-- The current limit the hardware holds after the events of one call: every
`CONSTANT_CHARGE_CURRENT_MAX` write among `events` replaces the previous value
`prev` when the hardware accepted it (`rc` not negative) and leaves it when the
write failed. -/
def pushed_value (rc : Int) (events : List Event) (prev : Int) : Int :=
  events.foldl
    (fun acc e =>
      match e with
      | Event.set_property power_supply_property.CONSTANT_CHARGE_CURRENT_MAX v =>
        if rc < 0 then acc else v
      | _ => acc)
    prev

/-- The value of the most recent successful current-limit write along a
sequence of `bm_vote_fcc` calls started in state `s`; `prev` is the value
before the sequence (`-EINVAL` when nothing has been written yet). -/
def last_pushed : State → List VoteCall → Int → Int
  | _, [], prev => prev
  | s, c :: cs, prev =>
    last_pushed (bm_vote_fcc c.hw_rc s c.reason c.fcc).2 cs
      (pushed_value c.hw_rc (events_since s (bm_vote_fcc c.hw_rc s c.reason c.fcc).2) prev)

/-- The operations that submit votes. -/
inductive Op where
  | fb_update (BL_CORE_FBBLANK fb_state : Nat) (hw_rc : Int)
  | therm (temp rc_volt rc_cur : Int)
  | step (chg_present volt hw_rc : Int)
  deriving DecidableEq, Repr

/-- One operation: `bm_fb_update_work`, or `bm_check_therm_charging` on a new
reading, or `bm_check_step_charging` with the given charger presence. -/
def run_op (s : State) : Op → Option State
  | Op.fb_update mask fb_state hw_rc => some (bm_fb_update_work mask fb_state hw_rc s)
  | Op.therm temp rc_volt rc_cur =>
    bm_check_therm_charging rc_volt rc_cur { s with batt_temp := temp }
  | Op.step chg_present volt hw_rc =>
    some (bm_check_step_charging hw_rc { s with chg_present := chg_present } volt)

/-- The state after a sequence of operations; `none` when one of them reads
outside `therm_table`. -/
def run_ops : State → List Op → Option State
  | s, [] => some s
  | s, op :: ops =>
    match run_op s op with
    | none => none
    | some t => run_ops t ops

/-- The temperature of a thermal operation is a 32-bit value below `INT_MAX`. -/
def temp_below_max : Op → Prop
  | Op.therm temp _ _ => INT_MIN ≤ temp ∧ temp < INT_MAX
  | _ => True

instance (op : Op) : Decidable (temp_below_max op) := by
  cases op <;> unfold temp_below_max <;> infer_instance

/-- The current write of a thermal vote, if one is issued, does not fail. -/
def therm_write_ok : Op → Prop
  | Op.therm _ _ rc_cur => 0 ≤ rc_cur
  | _ => True

instance (op : Op) : Decidable (therm_write_ok op) := by
  cases op <;> unfold therm_write_ok <;> infer_instance

/-- Temperature `temp` lies in the interval `[min, max)` of band `i`. -/
def in_band (temp : Int) (i : Nat) : Prop :=
  match therm_table.get? i with
  | some band => band.min ≤ temp ∧ temp < band.max
  | none => False

instance (temp : Int) (i : Nat) : Decidable (in_band temp i) := by
  unfold in_band; split <;> infer_instance

/-- The positions at which the band walk of `bm_check_therm_charging` indexes
`therm_table`, in order; `n` is the number of loop iterations left. -/
def therm_walk_indices (temp : Int) : Nat → Int → List Int
  | 0, _ => []
  | n + 1, stat =>
    stat :: (match therm_table_at stat with
      | none => []
      | some band =>
        if temp < band.min then therm_walk_indices temp n (stat - 1)
        else if temp ≥ band.max then therm_walk_indices temp n (stat + 1)
        else [])

/-- The table has its four slots and the Default slot holds
`CHG_CURRENT_MAX`. -/
def default_inv (s : State) : Prop :=
  s.bm_vote_fcc_table.length = BM_REASON_MAX ∧
  s.bm_vote_fcc_table.getD BM_REASON_DEFAULT 0 = CHG_CURRENT_MAX

/-- The stored band is a row of `therm_table` and the Thermal slot holds the
cap of that row or is absent. -/
def therm_inv (s : State) : Prop :=
  s.bm_vote_fcc_table.length = BM_REASON_MAX ∧
  ∃ band, therm_table_at s.therm_stat = some band ∧
    (s.bm_vote_fcc_table.getD BM_REASON_THERM 0 = band.cur ∨
      s.bm_vote_fcc_table.getD BM_REASON_THERM 0 = -EINVAL)

/-- The stored band is a row of `therm_table` and the Thermal slot holds the
cap of that row. -/
def therm_inv_exact (s : State) : Prop :=
  s.bm_vote_fcc_table.length = BM_REASON_MAX ∧
  ∃ band, therm_table_at s.therm_stat = some band ∧
    s.bm_vote_fcc_table.getD BM_REASON_THERM 0 = band.cur

/-- The Step slot is absent whenever the latch is clear, and never holds
anything but `SC_CURRENT` or `-EINVAL`. -/
def step_inv (s : State) : Prop :=
  s.bm_vote_fcc_table.length = BM_REASON_MAX ∧
  (s.sc_status = false → s.bm_vote_fcc_table.getD BM_REASON_STEP 0 = -EINVAL) ∧
  (s.bm_vote_fcc_table.getD BM_REASON_STEP 0 = SC_CURRENT ∨
    s.bm_vote_fcc_table.getD BM_REASON_STEP 0 = -EINVAL)

/-! ## The scan of the vote table -/

theorem fcc_scan_upto_succ (table : List Int) (n : Nat) :
    fcc_scan_upto table (n + 1) = fcc_scan_step table (fcc_scan_upto table n) n := by
  simp [fcc_scan_upto, List.range_succ]

theorem fcc_scan_upto_spec (table : List Int) (n : Nat) :
    (fcc_scan_upto table n = (INT_MAX, -EINVAL) ∧
      ∀ j, j < n → table.getD j 0 ≠ -EINVAL → INT_MAX ≤ table.getD j 0) ∨
    (∃ i, i < n ∧ fcc_scan_upto table n = (table.getD i 0, (i : Int)) ∧
      table.getD i 0 ≠ -EINVAL ∧ table.getD i 0 < INT_MAX ∧
      (∀ j, j < n → table.getD j 0 ≠ -EINVAL → table.getD i 0 ≤ table.getD j 0) ∧
      (∀ j, j < i → table.getD j 0 ≠ -EINVAL → table.getD i 0 < table.getD j 0)) := by
  induction n with
  | zero => left; exact ⟨rfl, fun j hj => absurd hj (Nat.not_lt_zero j)⟩
  | succ n ih =>
    rw [fcc_scan_upto_succ]
    rcases ih with ⟨heq, hall⟩ | ⟨i, hi, heq, hp, hlt, hmin, hlow⟩
    · rw [heq]
      unfold fcc_scan_step
      by_cases h1 : table.getD n 0 = -EINVAL
      · left
        rw [if_pos h1]
        refine ⟨rfl, fun j hj hpj => ?_⟩
        rcases Nat.lt_succ_iff_lt_or_eq.mp hj with hj | rfl
        · exact hall j hj hpj
        · exact absurd h1 hpj
      · rw [if_neg h1]
        by_cases h2 : INT_MAX > table.getD n 0
        · right
          rw [if_pos h2]
          refine ⟨n, Nat.lt_succ_self n, rfl, h1, h2, fun j hj hpj => ?_, fun j hj hpj => ?_⟩
          · rcases Nat.lt_succ_iff_lt_or_eq.mp hj with hj | rfl
            · have := hall j hj hpj
              omega
            · exact le_refl _
          · have := hall j hj hpj
            omega
        · left
          rw [if_neg h2]
          refine ⟨rfl, fun j hj hpj => ?_⟩
          rcases Nat.lt_succ_iff_lt_or_eq.mp hj with hj | rfl
          · exact hall j hj hpj
          · omega
    · right
      rw [heq]
      unfold fcc_scan_step
      by_cases h1 : table.getD n 0 = -EINVAL
      · rw [if_pos h1]
        refine ⟨i, Nat.lt_succ_of_lt hi, rfl, hp, hlt, fun j hj hpj => ?_, hlow⟩
        rcases Nat.lt_succ_iff_lt_or_eq.mp hj with hj | rfl
        · exact hmin j hj hpj
        · exact absurd h1 hpj
      · rw [if_neg h1]
        by_cases h2 : table.getD i 0 > table.getD n 0
        · rw [if_pos h2]
          refine ⟨n, Nat.lt_succ_self n, rfl, h1, by omega, fun j hj hpj => ?_, fun j hj hpj => ?_⟩
          · rcases Nat.lt_succ_iff_lt_or_eq.mp hj with hj | rfl
            · have := hmin j hj hpj
              omega
            · exact le_refl _
          · have := hmin j hj hpj
            omega
        · rw [if_neg h2]
          refine ⟨i, Nat.lt_succ_of_lt hi, rfl, hp, hlt, fun j hj hpj => ?_, hlow⟩
          rcases Nat.lt_succ_iff_lt_or_eq.mp hj with hj | rfl
          · exact hmin j hj hpj
          · omega


theorem fcc_scan_eq_upto (table : List Int) :
    fcc_scan table = fcc_scan_upto table BM_REASON_MAX := rfl

theorem fcc_scan_fst_le (table : List Int) (j : Nat) (hj : present table j) :
    (fcc_scan table).1 ≤ table.getD j 0 := by
  rw [fcc_scan_eq_upto]
  rcases fcc_scan_upto_spec table BM_REASON_MAX with ⟨heq, hall⟩ | ⟨i, _, heq, _, _, hmin, _⟩
  · rw [heq]; exact hall j hj.1 hj.2
  · rw [heq]; exact hmin j hj.1 hj.2

/-- With a present entry below `INT_MAX` the scan returns the least present
value and the first index holding it. -/
theorem fcc_scan_min (table : List Int) (k : Nat) (hk : present table k)
    (hlt : table.getD k 0 < INT_MAX) :
    is_min_present table (fcc_scan table).1 ∧
    is_lowest_reason table (fcc_scan table).1 (fcc_scan table).2 := by
  rw [fcc_scan_eq_upto]
  rcases fcc_scan_upto_spec table BM_REASON_MAX with ⟨_, hall⟩ | ⟨i, hi, heq, hp, _, hmin, hlow⟩
  · have := hall k hk.1 hk.2
    omega
  · rw [heq]
    refine ⟨⟨⟨i, ⟨hi, hp⟩, rfl⟩, fun j hj => hmin j hj.1 hj.2⟩, ?_⟩
    refine ⟨i, rfl, ⟨hi, hp⟩, rfl, fun j hj hpj => ?_⟩
    have := hlow j hj hpj.2
    omega

/-! ## Frame and case lemmas for the arbiter -/

theorem bm_vote_fcc_update_cases (rc : Int) (s : State) :
    ((bm_vote_fcc_update rc s).1 = rc ∧ rc < 0 ∧
      (fcc_scan s.bm_vote_fcc_table).1 ≠ s.bm_vote_fcc_value ∧
      (bm_vote_fcc_update rc s).2 = { s with log := s.log ++
        [Event.set_property power_supply_property.CONSTANT_CHARGE_CURRENT_MAX
          (fcc_scan s.bm_vote_fcc_table).1] }) ∨
    (0 ≤ (bm_vote_fcc_update rc s).1 ∧
      (bm_vote_fcc_update rc s).2.bm_vote_fcc_table = s.bm_vote_fcc_table ∧
      (bm_vote_fcc_update rc s).2.bm_vote_fcc_value = (fcc_scan s.bm_vote_fcc_table).1 ∧
      (bm_vote_fcc_update rc s).2.bm_vote_fcc_reason = (fcc_scan s.bm_vote_fcc_table).2 ∧
      (bm_vote_fcc_update rc s).2.therm_stat = s.therm_stat ∧
      (bm_vote_fcc_update rc s).2.chg_present = s.chg_present ∧
      (bm_vote_fcc_update rc s).2.batt_temp = s.batt_temp ∧
      (bm_vote_fcc_update rc s).2.sc_status = s.sc_status) := by
  unfold bm_vote_fcc_update
  by_cases h1 : (fcc_scan s.bm_vote_fcc_table).1 = s.bm_vote_fcc_value
  · by_cases h2 : (fcc_scan s.bm_vote_fcc_table).2 = s.bm_vote_fcc_reason
    · right; simp [h1, h2]
    · right; simp [h1, h2]
  · by_cases h3 : rc < 0
    · left; simp [h1, h3]
    · right; simp [h1, h3]; omega

theorem bm_vote_fcc_cases (rc : Int) (s : State) (reason : Nat) (fcc : Int) :
    ((bm_vote_fcc rc s reason fcc).1 = rc ∧ rc < 0 ∧
      (fcc_scan (s.bm_vote_fcc_table.set reason fcc)).1 ≠ s.bm_vote_fcc_value ∧
      (bm_vote_fcc rc s reason fcc).2 = { s with
        bm_vote_fcc_table := (s.bm_vote_fcc_table.set reason fcc).set reason (-EINVAL)
        log := s.log ++ [Event.vote_fcc reason fcc,
          Event.set_property power_supply_property.CONSTANT_CHARGE_CURRENT_MAX
            (fcc_scan (s.bm_vote_fcc_table.set reason fcc)).1] }) ∨
    (0 ≤ (bm_vote_fcc rc s reason fcc).1 ∧
      (bm_vote_fcc rc s reason fcc).2.bm_vote_fcc_table = s.bm_vote_fcc_table.set reason fcc ∧
      (bm_vote_fcc rc s reason fcc).2.bm_vote_fcc_value
        = (fcc_scan (s.bm_vote_fcc_table.set reason fcc)).1 ∧
      (bm_vote_fcc rc s reason fcc).2.bm_vote_fcc_reason
        = (fcc_scan (s.bm_vote_fcc_table.set reason fcc)).2 ∧
      (bm_vote_fcc rc s reason fcc).2.therm_stat = s.therm_stat ∧
      (bm_vote_fcc rc s reason fcc).2.chg_present = s.chg_present ∧
      (bm_vote_fcc rc s reason fcc).2.batt_temp = s.batt_temp ∧
      (bm_vote_fcc rc s reason fcc).2.sc_status = s.sc_status) := by
  unfold bm_vote_fcc
  rcases bm_vote_fcc_update_cases rc { s with
      log := s.log ++ [Event.vote_fcc reason fcc]
      bm_vote_fcc_table := s.bm_vote_fcc_table.set reason fcc } with
    ⟨h1, h2, h3, h4⟩ | ⟨h1, h2⟩
  · left
    have hlt : (bm_vote_fcc_update rc { s with
      log := s.log ++ [Event.vote_fcc reason fcc]
      bm_vote_fcc_table := s.bm_vote_fcc_table.set reason fcc }).1 < 0 := by rw [h1]; exact h2
    simp only [hlt, if_true]
    refine ⟨h1, h2, h3, ?_⟩
    rw [h4]
    simp
  · right
    have hge : ¬ (bm_vote_fcc_update rc { s with
      log := s.log ++ [Event.vote_fcc reason fcc]
      bm_vote_fcc_table := s.bm_vote_fcc_table.set reason fcc }).1 < 0 := by omega
    simp only [hge, if_false]
    exact ⟨h1, h2⟩

/-! ## C1: the recorded value never exceeds a present vote -/

theorem vote_inv_init (batt_temp chg_present : Int) :
    vote_inv (bm_init_state batt_temp chg_present) := by
  refine ⟨-EINVAL, -EINVAL, -EINVAL, rfl, ?_⟩
  simp [bm_init_state, EINVAL, CHG_CURRENT_MAX]

theorem present_four (a b c d : Int) (i : Nat) (hi : present [a, b, c, d] i) :
    (i = 0 ∧ a ≠ -EINVAL) ∨ (i = 1 ∧ b ≠ -EINVAL) ∨ (i = 2 ∧ c ≠ -EINVAL) ∨
      (i = 3 ∧ d ≠ -EINVAL) := by
  obtain ⟨h1, h2⟩ := hi
  have h4 : i = 0 ∨ i = 1 ∨ i = 2 ∨ i = 3 := by
    simp only [BM_REASON_MAX] at h1; omega
  rcases h4 with rfl | rfl | rfl | rfl <;> simp_all

theorem fcc_scan_four_le (a b c d : Int) :
    (a ≠ -EINVAL → (fcc_scan [a, b, c, d]).1 ≤ a) ∧
    (b ≠ -EINVAL → (fcc_scan [a, b, c, d]).1 ≤ b) ∧
    (c ≠ -EINVAL → (fcc_scan [a, b, c, d]).1 ≤ c) ∧
    (d ≠ -EINVAL → (fcc_scan [a, b, c, d]).1 ≤ d) := by
  refine ⟨fun h => ?_, fun h => ?_, fun h => ?_, fun h => ?_⟩
  · exact fcc_scan_fst_le [a, b, c, d] 0 ⟨by decide, by simpa using h⟩
  · exact fcc_scan_fst_le [a, b, c, d] 1 ⟨by decide, by simpa using h⟩
  · exact fcc_scan_fst_le [a, b, c, d] 2 ⟨by decide, by simpa using h⟩
  · exact fcc_scan_fst_le [a, b, c, d] 3 ⟨by decide, by simpa using h⟩

theorem vote_inv_step (s : State) (c : VoteCall) (hs : vote_inv s) (hc : valid_vote c) :
    vote_inv (bm_vote_fcc c.hw_rc s c.reason c.fcc).2 := by
  obtain ⟨b, c1, d, htab, hb, hc1, hd, hmax, hvb, hvc, hvd⟩ := hs
  obtain ⟨hr, hv⟩ := hc
  have hM : CHG_CURRENT_MAX ≠ -EINVAL := by decide
  rcases bm_vote_fcc_cases c.hw_rc s c.reason c.fcc with ⟨_, _, _, h4⟩ | ⟨_, h2, h3, _⟩
  · rw [h4]
    rcases hr with hr | hr | hr <;> rw [hr, htab]
    · exact ⟨-EINVAL, c1, d, by simp [BM_REASON_LCD], Or.inr rfl, hc1, hd, hmax,
        fun h => absurd rfl h, hvc, hvd⟩
    · exact ⟨b, -EINVAL, d, by simp [BM_REASON_STEP], hb, Or.inr rfl, hd, hmax,
        hvb, fun h => absurd rfl h, hvd⟩
    · exact ⟨b, c1, -EINVAL, by simp [BM_REASON_THERM], hb, hc1, Or.inr rfl, hmax,
        hvb, hvc, fun h => absurd rfl h⟩
  · rcases hr with hr | hr | hr <;> rw [hr, htab] at h2 h3 <;> rw [hr]
    · have hle := fcc_scan_four_le CHG_CURRENT_MAX c.fcc c1 d
      refine ⟨c.fcc, c1, d, by rw [h2]; simp [BM_REASON_LCD], hv, hc1, hd, ?_, ?_, ?_, ?_⟩ <;>
        rw [h3] <;> simp only [BM_REASON_LCD, List.set_cons_succ, List.set_cons_zero]
      · exact hle.1 hM
      · exact hle.2.1
      · exact hle.2.2.1
      · exact hle.2.2.2
    · have hle := fcc_scan_four_le CHG_CURRENT_MAX b c.fcc d
      refine ⟨b, c.fcc, d, by rw [h2]; simp [BM_REASON_STEP], hb, hv, hd, ?_, ?_, ?_, ?_⟩ <;>
        rw [h3] <;> simp only [BM_REASON_STEP, List.set_cons_succ, List.set_cons_zero]
      · exact hle.1 hM
      · exact hle.2.1
      · exact hle.2.2.1
      · exact hle.2.2.2
    · have hle := fcc_scan_four_le CHG_CURRENT_MAX b c1 c.fcc
      refine ⟨b, c1, c.fcc, by rw [h2]; simp [BM_REASON_THERM], hb, hc1, hv, ?_, ?_, ?_, ?_⟩ <;>
        rw [h3] <;> simp only [BM_REASON_THERM, List.set_cons_succ, List.set_cons_zero]
      · exact hle.1 hM
      · exact hle.2.1
      · exact hle.2.2.1
      · exact hle.2.2.2

theorem vote_inv_run (calls : List VoteCall) :
    ∀ s : State, vote_inv s → (∀ c ∈ calls, valid_vote c) → vote_inv (run_votes s calls) := by
  induction calls with
  | nil => intro s hs _; exact hs
  | cons c cs ih =>
    intro s hs hall
    have hstep := vote_inv_step s c hs (hall c (List.mem_cons_self c cs))
    exact ih _ hstep (fun c1 hc1 => hall c1 (List.mem_cons_of_mem c hc1))

theorem vote_inv_le (s : State) (hs : vote_inv s) :
    (∀ i, present s.bm_vote_fcc_table i →
      s.bm_vote_fcc_value ≤ s.bm_vote_fcc_table.getD i 0) ∧
    s.bm_vote_fcc_value ≤ CHG_CURRENT_MAX := by
  obtain ⟨b, c, d, htab, _, _, _, hmax, hvb, hvc, hvd⟩ := hs
  refine ⟨fun i hi => ?_, hmax⟩
  rw [htab] at hi ⊢
  rcases present_four _ _ _ _ i hi with ⟨rfl, _⟩ | ⟨rfl, h⟩ | ⟨rfl, h⟩ | ⟨rfl, h⟩
  · simpa using hmax
  · simpa using hvb h
  · simpa using hvc h
  · simpa using hvd h

/-- C1: from the initial state, after every prefix of a sequence of
`bm_vote_fcc` calls with reason LCD, STEP or THERM and a value that is
non-negative or `-EINVAL`, whatever return codes the hardware gives, the
recorded `bm_vote_fcc_value` is at most every present entry of
`bm_vote_fcc_table`, and at most `CHG_CURRENT_MAX = 3550000`. -/
theorem vote_value_le_present (batt_temp chg_present : Int) (calls : List VoteCall)
    (hcalls : ∀ c ∈ calls, valid_vote c) (n : Nat) :
    (∀ i, present (run_votes (bm_init_state batt_temp chg_present)
          (calls.take n)).bm_vote_fcc_table i →
      (run_votes (bm_init_state batt_temp chg_present) (calls.take n)).bm_vote_fcc_value ≤
      (run_votes (bm_init_state batt_temp chg_present)
          (calls.take n)).bm_vote_fcc_table.getD i 0) ∧
    (run_votes (bm_init_state batt_temp chg_present) (calls.take n)).bm_vote_fcc_value
      ≤ 3550000 :=
  vote_inv_le _ (vote_inv_run (calls.take n) _ (vote_inv_init batt_temp chg_present)
    (fun c hc => hcalls c (List.mem_of_mem_take hc)))

theorem vote_value_le_present_witness :
    (∀ c ∈ [VoteCall.mk 1 1000000 0, VoteCall.mk 3 710000 (-5)], valid_vote c) ∧
    (run_votes (bm_init_state 250 1)
      ([VoteCall.mk 1 1000000 0, VoteCall.mk 3 710000 (-5)].take 2)).bm_vote_fcc_value
      ≤ 3550000 :=
  ⟨by decide, (vote_value_le_present 250 1 [VoteCall.mk 1 1000000 0, VoteCall.mk 3 710000 (-5)]
    (by decide) 2).2⟩

/-! ## C2: minimum value, lowest reason on ties -/

theorem bm_vote_fcc_update_ret (rc : Int) (s : State) :
    (bm_vote_fcc_update rc s).1 = rc ∨ (bm_vote_fcc_update rc s).1 = 0 := by
  unfold bm_vote_fcc_update
  dsimp only
  split_ifs <;> simp

theorem bm_vote_fcc_ok (rc : Int) (s : State) (reason : Nat) (fcc : Int) (hrc : 0 ≤ rc) :
    0 ≤ (bm_vote_fcc rc s reason fcc).1 ∧
    (bm_vote_fcc rc s reason fcc).2.bm_vote_fcc_table = s.bm_vote_fcc_table.set reason fcc ∧
    (bm_vote_fcc rc s reason fcc).2.bm_vote_fcc_value
      = (fcc_scan (s.bm_vote_fcc_table.set reason fcc)).1 ∧
    (bm_vote_fcc rc s reason fcc).2.bm_vote_fcc_reason
      = (fcc_scan (s.bm_vote_fcc_table.set reason fcc)).2 ∧
    (bm_vote_fcc rc s reason fcc).2.therm_stat = s.therm_stat ∧
    (bm_vote_fcc rc s reason fcc).2.chg_present = s.chg_present ∧
    (bm_vote_fcc rc s reason fcc).2.batt_temp = s.batt_temp ∧
    (bm_vote_fcc rc s reason fcc).2.sc_status = s.sc_status := by
  rcases bm_vote_fcc_cases rc s reason fcc with ⟨_, h2, _⟩ | h
  · omega
  · exact h

theorem bm_vote_fcc_update_ret_eq (rc : Int) (s : State) :
    (bm_vote_fcc_update rc s).1 =
      if (fcc_scan s.bm_vote_fcc_table).1 ≠ s.bm_vote_fcc_value then rc else 0 := by
  unfold bm_vote_fcc_update
  dsimp only
  split_ifs <;> simp_all

/-- C2, counterexample: from the initial state a hardware write that is
accepted with the positive return code 7 is a success (the winning pair
`(DEFAULT, 3550000)` is recorded), yet `bm_vote_fcc_update` returns 7, not 0. -/
theorem update_returns_accepted_code :
    (bm_vote_fcc_update 7 (bm_init_state 250 1)).1 = 7 ∧
    (bm_vote_fcc_update 7 (bm_init_state 250 1)).1 ≠ 0 ∧
    (bm_vote_fcc_update 7 (bm_init_state 250 1)).2.bm_vote_fcc_reason = 0 ∧
    (bm_vote_fcc_update 7 (bm_init_state 250 1)).2.bm_vote_fcc_value = 3550000 ∧
    events_since (bm_init_state 250 1) (bm_vote_fcc_update 7 (bm_init_state 250 1)).2
      = [Event.set_property power_supply_property.CONSTANT_CHARGE_CURRENT_MAX 3550000] := by
  decide

/-- C2, amended: for a vote table whose Default slot holds
`CHG_CURRENT_MAX = 3550000` and any recorded pair, when the hardware write does
not fail (return code `rc` not negative) or none is needed,
`bm_vote_fcc_update` returns `rc` if it issued the write and 0 if none was
needed, a non-negative code that is 0 whenever the hardware returns 0; the
recorded value becomes the minimum of the present entries and the recorded
reason the lowest index holding that minimum; a tie between slots `i < j`
therefore records a reason at most `i`, and two votes for distinct reasons give
the same recorded pair in either order. -/
theorem bm_vote_fcc_update_lowest_min (s : State) (b c d rc : Int)
    (htab : s.bm_vote_fcc_table = [CHG_CURRENT_MAX, b, c, d]) (hrc : 0 ≤ rc) :
    ((bm_vote_fcc_update rc s).1 =
      if (fcc_scan s.bm_vote_fcc_table).1 ≠ s.bm_vote_fcc_value then rc else 0) ∧
    0 ≤ (bm_vote_fcc_update rc s).1 ∧
    (rc = 0 → (bm_vote_fcc_update rc s).1 = 0) ∧
    is_min_present s.bm_vote_fcc_table (bm_vote_fcc_update rc s).2.bm_vote_fcc_value ∧
    is_lowest_reason s.bm_vote_fcc_table (bm_vote_fcc_update rc s).2.bm_vote_fcc_value
      (bm_vote_fcc_update rc s).2.bm_vote_fcc_reason ∧
    (∀ i j : Nat, i < j → j < BM_REASON_MAX →
      s.bm_vote_fcc_table.getD i 0 = (bm_vote_fcc_update rc s).2.bm_vote_fcc_value →
      s.bm_vote_fcc_table.getD j 0 = (bm_vote_fcc_update rc s).2.bm_vote_fcc_value →
      (bm_vote_fcc_update rc s).2.bm_vote_fcc_reason ≤ (i : Int)) ∧
    (∀ (r1 r2 : Nat) (v rc1 rc2 rc3 rc4 : Int), r1 ≠ r2 →
      0 ≤ rc1 → 0 ≤ rc2 → 0 ≤ rc3 → 0 ≤ rc4 →
      ((bm_vote_fcc rc2 (bm_vote_fcc rc1 s r1 v).2 r2 v).2.bm_vote_fcc_reason,
        (bm_vote_fcc rc2 (bm_vote_fcc rc1 s r1 v).2 r2 v).2.bm_vote_fcc_value) =
      ((bm_vote_fcc rc4 (bm_vote_fcc rc3 s r2 v).2 r1 v).2.bm_vote_fcc_reason,
        (bm_vote_fcc rc4 (bm_vote_fcc rc3 s r2 v).2 r1 v).2.bm_vote_fcc_value)) := by
  have hdef : present s.bm_vote_fcc_table 0 := by
    rw [htab]; exact ⟨by decide, by simp [CHG_CURRENT_MAX, EINVAL]⟩
  have hlt : s.bm_vote_fcc_table.getD 0 0 < INT_MAX := by
    rw [htab]; simp [CHG_CURRENT_MAX, INT_MAX]
  obtain ⟨hmin, hlow⟩ := fcc_scan_min s.bm_vote_fcc_table 0 hdef hlt
  have hcase : (bm_vote_fcc_update rc s).2.bm_vote_fcc_value = (fcc_scan s.bm_vote_fcc_table).1 ∧
      (bm_vote_fcc_update rc s).2.bm_vote_fcc_reason = (fcc_scan s.bm_vote_fcc_table).2 := by
    rcases bm_vote_fcc_update_cases rc s with ⟨_, h2, _⟩ | ⟨_, _, h3, h4, _⟩
    · omega
    · exact ⟨h3, h4⟩
  have hret := bm_vote_fcc_update_ret_eq rc s
  have hnonneg : 0 ≤ (bm_vote_fcc_update rc s).1 := by
    rcases bm_vote_fcc_update_ret rc s with h | h
    · rw [h]; exact hrc
    · exact le_of_eq h.symm
  rw [hcase.1, hcase.2]
  refine ⟨hret, hnonneg, fun h0 => ?_, hmin, hlow, fun i j hij hj hi4 _ => ?_, ?_⟩
  · rcases bm_vote_fcc_update_ret rc s with h | h
    · rw [h, h0]
    · exact h
  · obtain ⟨i0, hr, _, _, hfirst⟩ := hlow
    rw [hr]
    by_contra hcon
    have hlt0 : i < i0 := by omega
    obtain ⟨⟨k, hk, hkv⟩, _⟩ := hmin
    have hpi : present s.bm_vote_fcc_table i := ⟨by omega, by rw [hi4, ← hkv]; exact hk.2⟩
    exact hfirst i hlt0 hpi hi4
  · intro r1 r2 v rc1 rc2 rc3 rc4 hne h1 h2 h3 h4
    obtain ⟨_, ha1, _⟩ := bm_vote_fcc_ok rc1 s r1 v h1
    obtain ⟨_, ha2, ha3, ha4, _⟩ := bm_vote_fcc_ok rc2 (bm_vote_fcc rc1 s r1 v).2 r2 v h2
    obtain ⟨_, hb1, _⟩ := bm_vote_fcc_ok rc3 s r2 v h3
    obtain ⟨_, hb2, hb3, hb4, _⟩ := bm_vote_fcc_ok rc4 (bm_vote_fcc rc3 s r2 v).2 r1 v h4
    rw [ha3, ha4, hb3, hb4, ha1, hb1, List.set_comm v v s.bm_vote_fcc_table hne]

theorem bm_vote_fcc_update_lowest_min_witness :
    (bm_vote_fcc_update 7
      { bm_init_state 250 1 with
        bm_vote_fcc_table := [CHG_CURRENT_MAX, 710000, -EINVAL, 710000] }).1 = 7 ∧
    (bm_vote_fcc_update 0
      { bm_init_state 250 1 with
        bm_vote_fcc_table := [CHG_CURRENT_MAX, 710000, -EINVAL, 710000] }).1 = 0 ∧
    is_min_present [CHG_CURRENT_MAX, 710000, -EINVAL, 710000]
      (bm_vote_fcc_update 7
        { bm_init_state 250 1 with
          bm_vote_fcc_table := [CHG_CURRENT_MAX, 710000, -EINVAL, 710000] }).2.bm_vote_fcc_value ∧
    (bm_vote_fcc_update 7
      { bm_init_state 250 1 with
        bm_vote_fcc_table := [CHG_CURRENT_MAX, 710000, -EINVAL, 710000]
      }).2.bm_vote_fcc_reason ≤ ((BM_REASON_LCD : Nat) : Int) :=
  ⟨((bm_vote_fcc_update_lowest_min
      { bm_init_state 250 1 with
        bm_vote_fcc_table := [CHG_CURRENT_MAX, 710000, -EINVAL, 710000] }
      710000 (-EINVAL) 710000 7 rfl (by decide)).1).trans (by decide),
    (bm_vote_fcc_update_lowest_min
      { bm_init_state 250 1 with
        bm_vote_fcc_table := [CHG_CURRENT_MAX, 710000, -EINVAL, 710000] }
      710000 (-EINVAL) 710000 0 rfl (le_refl 0)).2.2.1 rfl,
    (bm_vote_fcc_update_lowest_min
      { bm_init_state 250 1 with
        bm_vote_fcc_table := [CHG_CURRENT_MAX, 710000, -EINVAL, 710000] }
      710000 (-EINVAL) 710000 7 rfl (by decide)).2.2.2.1,
    (bm_vote_fcc_update_lowest_min
      { bm_init_state 250 1 with
        bm_vote_fcc_table := [CHG_CURRENT_MAX, 710000, -EINVAL, 710000] }
      710000 (-EINVAL) 710000 7 rfl (by decide)).2.2.2.2.2.1
      BM_REASON_LCD BM_REASON_THERM (by decide) (by decide) (by decide) (by decide)⟩

/-! ## C3: the end-to-end scenario -/

/-- C3: from a state with the initial table (only Default = 3550000 present)
and hardware writes that do not fail, `bm_vote_fcc(LCD, 1000000)` records
`(LCD, 1000000)`, then `bm_vote_fcc(THERM, 710000)` records `(THERM, 710000)`,
then `bm_vote_fcc(THERM, -EINVAL)` records `(LCD, 1000000)` again and not
`(DEFAULT, 3550000)`. -/
theorem end_to_end_scenario (s : State) (rc1 rc2 rc3 : Int)
    (htab : s.bm_vote_fcc_table = bm_vote_fcc_table_init)
    (h1 : 0 ≤ rc1) (h2 : 0 ≤ rc2) (h3 : 0 ≤ rc3) :
    ((bm_vote_fcc rc1 s BM_REASON_LCD 1000000).2.bm_vote_fcc_reason,
      (bm_vote_fcc rc1 s BM_REASON_LCD 1000000).2.bm_vote_fcc_value)
      = ((BM_REASON_LCD : Int), 1000000) ∧
    ((bm_vote_fcc rc2 (bm_vote_fcc rc1 s BM_REASON_LCD 1000000).2
        BM_REASON_THERM 710000).2.bm_vote_fcc_reason,
      (bm_vote_fcc rc2 (bm_vote_fcc rc1 s BM_REASON_LCD 1000000).2
        BM_REASON_THERM 710000).2.bm_vote_fcc_value)
      = ((BM_REASON_THERM : Int), 710000) ∧
    ((bm_vote_fcc rc3 (bm_vote_fcc rc2 (bm_vote_fcc rc1 s BM_REASON_LCD 1000000).2
        BM_REASON_THERM 710000).2 BM_REASON_THERM (-EINVAL)).2.bm_vote_fcc_reason,
      (bm_vote_fcc rc3 (bm_vote_fcc rc2 (bm_vote_fcc rc1 s BM_REASON_LCD 1000000).2
        BM_REASON_THERM 710000).2 BM_REASON_THERM (-EINVAL)).2.bm_vote_fcc_value)
      = ((BM_REASON_LCD : Int), 1000000) ∧
    ((bm_vote_fcc rc3 (bm_vote_fcc rc2 (bm_vote_fcc rc1 s BM_REASON_LCD 1000000).2
        BM_REASON_THERM 710000).2 BM_REASON_THERM (-EINVAL)).2.bm_vote_fcc_reason,
      (bm_vote_fcc rc3 (bm_vote_fcc rc2 (bm_vote_fcc rc1 s BM_REASON_LCD 1000000).2
        BM_REASON_THERM 710000).2 BM_REASON_THERM (-EINVAL)).2.bm_vote_fcc_value)
      ≠ ((BM_REASON_DEFAULT : Int), 3550000) := by
  obtain ⟨_, ha1, ha2, ha3, _⟩ := bm_vote_fcc_ok rc1 s BM_REASON_LCD 1000000 h1
  obtain ⟨_, hb1, hb2, hb3, _⟩ := bm_vote_fcc_ok rc2
    (bm_vote_fcc rc1 s BM_REASON_LCD 1000000).2 BM_REASON_THERM 710000 h2
  obtain ⟨_, _, hc2, hc3, _⟩ := bm_vote_fcc_ok rc3
    (bm_vote_fcc rc2 (bm_vote_fcc rc1 s BM_REASON_LCD 1000000).2 BM_REASON_THERM 710000).2
    BM_REASON_THERM (-EINVAL) h3
  rw [hc2, hc3, hb1, hb2, hb3, ha1, ha2, ha3, htab]
  decide

theorem end_to_end_scenario_witness :
    ((bm_vote_fcc 0 (bm_vote_fcc 0 (bm_vote_fcc 0 (bm_init_state 250 1) BM_REASON_LCD 1000000).2
        BM_REASON_THERM 710000).2 BM_REASON_THERM (-EINVAL)).2.bm_vote_fcc_reason,
      (bm_vote_fcc 0 (bm_vote_fcc 0 (bm_vote_fcc 0 (bm_init_state 250 1) BM_REASON_LCD 1000000).2
        BM_REASON_THERM 710000).2 BM_REASON_THERM (-EINVAL)).2.bm_vote_fcc_value)
      = ((BM_REASON_LCD : Int), 1000000) :=
  (end_to_end_scenario (bm_init_state 250 1) 0 0 0 rfl (le_refl 0) (le_refl 0)
    (le_refl 0)).2.2.1

/-! ## C4: rollback of a failed vote -/

theorem events_since_append (s t : State) (es : List Event) (h : t.log = s.log ++ es) :
    events_since s t = es := by
  simp [events_since, h]

theorem bm_vote_fcc_events (rc : Int) (s : State) (reason : Nat) (fcc : Int) :
    events_since s (bm_vote_fcc rc s reason fcc).2 = [Event.vote_fcc reason fcc] ∨
    events_since s (bm_vote_fcc rc s reason fcc).2 = [Event.vote_fcc reason fcc,
      Event.set_property power_supply_property.CONSTANT_CHARGE_CURRENT_MAX
        (fcc_scan (s.bm_vote_fcc_table.set reason fcc)).1] := by
  unfold bm_vote_fcc bm_vote_fcc_update
  dsimp only
  split_ifs <;> simp [events_since]

/-- C4: in any state with a four-slot table, for a reason LCD, STEP or THERM
and any value, if `bm_vote_fcc(reason, value)` issues the hardware current
write and that write fails (negative return code `rc`), then `bm_vote_fcc`
returns `rc`, the slot of that reason is `-EINVAL` afterwards, every other slot
is unchanged, and the recorded pair is what it was before the call. -/
theorem bm_vote_fcc_rollback (s : State) (reason : Nat) (fcc rc : Int)
    (hlen : s.bm_vote_fcc_table.length = BM_REASON_MAX)
    (hreason : reason = BM_REASON_LCD ∨ reason = BM_REASON_STEP ∨ reason = BM_REASON_THERM)
    (hissued : (events_since s (bm_vote_fcc rc s reason fcc).2).any is_current_write = true)
    (hfail : rc < 0) :
    (bm_vote_fcc rc s reason fcc).1 = rc ∧
    (bm_vote_fcc rc s reason fcc).2.bm_vote_fcc_table.getD reason 0 = -EINVAL ∧
    (∀ i, i ≠ reason → (bm_vote_fcc rc s reason fcc).2.bm_vote_fcc_table.getD i 0
      = s.bm_vote_fcc_table.getD i 0) ∧
    (bm_vote_fcc rc s reason fcc).2.bm_vote_fcc_table.length = BM_REASON_MAX ∧
    (bm_vote_fcc rc s reason fcc).2.bm_vote_fcc_reason = s.bm_vote_fcc_reason ∧
    (bm_vote_fcc rc s reason fcc).2.bm_vote_fcc_value = s.bm_vote_fcc_value := by
  have hr4 : reason < s.bm_vote_fcc_table.length := by
    rw [hlen]
    rcases hreason with h | h | h <;> rw [h] <;> decide
  rcases bm_vote_fcc_cases rc s reason fcc with ⟨h1, _, _, h4⟩ | ⟨h1, _⟩
  · rw [h4]
    refine ⟨h1, ?_, fun i hi => ?_, ?_, rfl, rfl⟩
    · simp [List.getD_eq_getElem?_getD, List.getElem?_set, hr4]
    · simp [List.getD_eq_getElem?_getD, List.getElem?_set, Ne.symm hi]
    · simpa using hlen
  · exfalso
    have hret : (bm_vote_fcc rc s reason fcc).1 = rc := by
      unfold bm_vote_fcc bm_vote_fcc_update at hissued ⊢
      dsimp only at hissued ⊢
      split_ifs at hissued ⊢ <;> simp_all [events_since, is_current_write]
    omega

theorem bm_vote_fcc_rollback_witness :
    (bm_vote_fcc (-5) (bm_init_state 250 1) BM_REASON_LCD 1000000).1 = -5 ∧
    (bm_vote_fcc (-5) (bm_init_state 250 1) BM_REASON_LCD 1000000).2.bm_vote_fcc_table.getD
      BM_REASON_LCD 0 = -EINVAL :=
  ⟨(bm_vote_fcc_rollback (bm_init_state 250 1) BM_REASON_LCD 1000000 (-5) rfl
      (Or.inl rfl) (by decide) (by decide)).1,
    (bm_vote_fcc_rollback (bm_init_state 250 1) BM_REASON_LCD 1000000 (-5) rfl
      (Or.inl rfl) (by decide) (by decide)).2.1⟩

/-! ## C5: a second resolve after a resolve that did not fail -/

/-- C5, counterexample: from the initial state, a first `bm_vote_fcc_update`
whose hardware write fails is followed by a second call that issues the write
again; two `bm_set_property` calls are made in total and the second call does
change the state. -/
theorem resolve_twice_after_failure :
    (events_since (bm_init_state 250 1)
      (bm_vote_fcc_update 0 (bm_vote_fcc_update (-5) (bm_init_state 250 1)).2).2).countP
        is_set_property = 2 ∧
    (events_since (bm_vote_fcc_update (-5) (bm_init_state 250 1)).2
      (bm_vote_fcc_update 0 (bm_vote_fcc_update (-5) (bm_init_state 250 1)).2).2)
      = [Event.set_property power_supply_property.CONSTANT_CHARGE_CURRENT_MAX 3550000] ∧
    (bm_vote_fcc_update 0 (bm_vote_fcc_update (-5) (bm_init_state 250 1)).2).2
      ≠ (bm_vote_fcc_update (-5) (bm_init_state 250 1)).2 := by
  decide

/-- C5, amended: for every vote table and recorded pair, when the first
`bm_vote_fcc_update` does not fail (returns a non-negative code), a second call
on the unchanged table returns 0, issues no hardware write and leaves the whole
state as it is, so that the two calls together issue at most one
`bm_set_property` call. -/
theorem resolve_idempotent (s : State) (rc1 rc2 : Int)
    (hok : 0 ≤ (bm_vote_fcc_update rc1 s).1) :
    bm_vote_fcc_update rc2 (bm_vote_fcc_update rc1 s).2 = (0, (bm_vote_fcc_update rc1 s).2) ∧
    events_since (bm_vote_fcc_update rc1 s).2
      (bm_vote_fcc_update rc2 (bm_vote_fcc_update rc1 s).2).2 = [] ∧
    (events_since s (bm_vote_fcc_update rc2 (bm_vote_fcc_update rc1 s).2).2).countP
      is_set_property ≤ 1 := by
  have hpair : (bm_vote_fcc_update rc1 s).2.bm_vote_fcc_table = s.bm_vote_fcc_table ∧
      (bm_vote_fcc_update rc1 s).2.bm_vote_fcc_value = (fcc_scan s.bm_vote_fcc_table).1 ∧
      (bm_vote_fcc_update rc1 s).2.bm_vote_fcc_reason = (fcc_scan s.bm_vote_fcc_table).2 := by
    rcases bm_vote_fcc_update_cases rc1 s with ⟨h1, h2, _⟩ | ⟨_, h2, h3, h4, _⟩
    · omega
    · exact ⟨h2, h3, h4⟩
  have hsecond : bm_vote_fcc_update rc2 (bm_vote_fcc_update rc1 s).2
      = (0, (bm_vote_fcc_update rc1 s).2) := by
    obtain ⟨ht, hv, hr⟩ := hpair
    generalize bm_vote_fcc_update rc1 s = r at ht hv hr
    unfold bm_vote_fcc_update
    simp [ht, hv, hr]
  refine ⟨hsecond, ?_, ?_⟩
  · rw [hsecond]; simp [events_since]
  · rw [hsecond]
    unfold bm_vote_fcc_update
    dsimp only
    split_ifs <;> simp [events_since, is_set_property]

theorem resolve_idempotent_witness :
    0 ≤ (bm_vote_fcc_update 0 (bm_init_state 250 1)).1 ∧
    bm_vote_fcc_update 7 (bm_vote_fcc_update 0 (bm_init_state 250 1)).2
      = (0, (bm_vote_fcc_update 0 (bm_init_state 250 1)).2) :=
  ⟨by decide, (resolve_idempotent (bm_init_state 250 1) 0 7 (by decide)).1⟩

/-! ## The band walk -/

theorem therm_walk_in_band (temp stat : Int) (n : Nat) (band : bm_therm_table)
    (hband : therm_table_at stat = some band) (hmin : band.min ≤ temp)
    (hmax : temp < band.max) :
    therm_walk temp (n + 1) stat = some stat := by
  have h1 : ¬ temp < band.min := by omega
  have h2 : ¬ temp ≥ band.max := by omega
  simp [therm_walk, hband, h1, h2]

theorem therm_walk_succ (temp stat : Int) (n : Nat) (band : bm_therm_table)
    (hband : therm_table_at stat = some band) :
    therm_walk temp (n + 1) stat =
      if temp < band.min then therm_walk temp n (stat - 1)
      else if temp ≥ band.max then therm_walk temp n (stat + 1)
      else some stat := by
  simp [therm_walk, hband]

theorem therm_table_at_cold :
    therm_table_at 0 = some { min := INT_MIN, max := 20, cur := 0 } := rfl

theorem therm_table_at_cool :
    therm_table_at 1 = some { min := 0, max := 220, cur := 710000 } := rfl

theorem therm_table_at_good :
    therm_table_at 2 = some { min := 200, max := 450, cur := -EINVAL } := rfl

theorem therm_table_at_warm :
    therm_table_at 3 = some { min := 430, max := 550, cur := 710000 } := rfl

theorem therm_table_at_hot :
    therm_table_at 4 = some { min := 530, max := INT_MAX, cur := 0 } := rfl

theorem therm_walk_cold_to_hot (temp : Int) (h1 : 550 ≤ temp) (h2 : temp < INT_MAX) :
    therm_walk temp BM_HEALTH_MAX BM_HEALTH_COLD = some BM_HEALTH_HOT := by
  have a0 : ¬ temp < INT_MIN := by simp only [INT_MIN]; omega
  have a1 : temp ≥ 20 := by omega
  have b0 : ¬ temp < 0 := by omega
  have b1 : temp ≥ 220 := by omega
  have c0 : ¬ temp < 200 := by omega
  have c1 : temp ≥ 450 := by omega
  have d0 : ¬ temp < 430 := by omega
  have d1 : temp ≥ 550 := by omega
  have e0 : ¬ temp < 530 := by omega
  have e1 : ¬ temp ≥ INT_MAX := by omega
  show therm_walk temp (4 + 1) 0 = some 4
  rw [therm_walk_succ temp 0 4 _ therm_table_at_cold, if_neg a0, if_pos a1]
  show therm_walk temp (3 + 1) 1 = some 4
  rw [therm_walk_succ temp 1 3 _ therm_table_at_cool, if_neg b0, if_pos b1]
  show therm_walk temp (2 + 1) 2 = some 4
  rw [therm_walk_succ temp 2 2 _ therm_table_at_good, if_neg c0, if_pos c1]
  show therm_walk temp (1 + 1) 3 = some 4
  rw [therm_walk_succ temp 3 1 _ therm_table_at_warm, if_neg d0, if_pos d1]
  show therm_walk temp (0 + 1) 4 = some 4
  rw [therm_walk_succ temp 4 0 _ therm_table_at_hot, if_neg e0, if_neg e1]

/-! ## The band walk always resolves -/

theorem therm_table_overlap (m : Nat) (hm : m + 1 ≤ 4) :
    ∃ lo hi, therm_table_at (m : Int) = some lo ∧ therm_table_at ((m : Int) + 1) = some hi ∧
      hi.min < lo.max := by
  have h : m = 0 ∨ m = 1 ∨ m = 2 ∨ m = 3 := by omega
  rcases h with rfl | rfl | rfl | rfl
  · exact ⟨_, _, therm_table_at_cold, therm_table_at_cool, by decide⟩
  · exact ⟨_, _, therm_table_at_cool, therm_table_at_good, by decide⟩
  · exact ⟨_, _, therm_table_at_good, therm_table_at_warm, by decide⟩
  · exact ⟨_, _, therm_table_at_warm, therm_table_at_hot, by decide⟩

theorem therm_walk_down (temp : Int) (ht0 : INT_MIN ≤ temp) (m : Nat) :
    ∀ (n : Nat) (band : bm_therm_table), m ≤ 4 → m ≤ n →
      therm_table_at (m : Int) = some band → temp < band.max →
      ∃ st res, therm_walk temp (n + 1) (m : Int) = some st ∧ 0 ≤ st ∧ st ≤ (m : Int) ∧
        therm_table_at st = some res ∧ res.min ≤ temp ∧ temp < res.max := by
  induction m with
  | zero =>
    intro n band _ _ hband hmax
    have hb : band = { min := INT_MIN, max := 20, cur := 0 } := by
      have := therm_table_at_cold
      rw [show ((0 : Nat) : Int) = 0 from rfl] at hband
      rw [hband] at this
      exact Option.some.inj this
    have hmin : band.min ≤ temp := by rw [hb]; exact ht0
    exact ⟨_, band, therm_walk_in_band temp _ n band hband hmin hmax, le_refl _, le_refl _,
      hband, hmin, hmax⟩
  | succ k ih =>
    intro n band hk4 hkn hband hmax
    by_cases hlow : temp < band.min
    · obtain ⟨lo, hi, hlo, hhi, hov⟩ := therm_table_overlap k (by omega)
      have hcast : ((k + 1 : Nat) : Int) = (k : Int) + 1 := by push_cast; rfl
      rw [hcast] at hband
      have hbe : hi = band := by rw [hhi] at hband; exact Option.some.inj hband
      obtain ⟨n1, rfl⟩ : ∃ n1, n = n1 + 1 := ⟨n - 1, by omega⟩
      obtain ⟨st, res, h1, h2, h3, h4, h5, h6⟩ := ih n1 lo (by omega) (by omega) hlo
        (by rw [← hbe] at hlow; omega)
      refine ⟨st, res, ?_, h2, by omega, h4, h5, h6⟩
      rw [hcast, therm_walk_succ temp _ (n1 + 1) band hband, if_pos hlow]
      have : (k : Int) + 1 - 1 = (k : Int) := by omega
      rw [this]
      exact h1
    · have hmin : band.min ≤ temp := by omega
      exact ⟨_, band, therm_walk_in_band temp _ n band hband hmin hmax, by omega, le_refl _,
        hband, hmin, hmax⟩

theorem therm_walk_up (temp : Int) (ht1 : temp < INT_MAX) (d : Nat) :
    ∀ (n m : Nat) (band : bm_therm_table), m + d = 4 → d ≤ n →
      therm_table_at (m : Int) = some band → band.min ≤ temp →
      ∃ st res, therm_walk temp (n + 1) (m : Int) = some st ∧ (m : Int) ≤ st ∧ st ≤ 4 ∧
        therm_table_at st = some res ∧ res.min ≤ temp ∧ temp < res.max := by
  induction d with
  | zero =>
    intro n m band hm _ hband hmin
    have hm4 : m = 4 := by omega
    subst hm4
    have hb : band = { min := 530, max := INT_MAX, cur := 0 } := by
      have := therm_table_at_hot
      rw [show ((4 : Nat) : Int) = 4 from rfl] at hband
      rw [hband] at this
      exact Option.some.inj this
    have hmax : temp < band.max := by rw [hb]; exact ht1
    exact ⟨_, band, therm_walk_in_band temp _ n band hband hmin hmax, le_refl _, by decide,
      hband, hmin, hmax⟩
  | succ k ih =>
    intro n m band hm hkn hband hmin
    by_cases hhigh : temp ≥ band.max
    · obtain ⟨lo, hi, hlo, hhi, hov⟩ := therm_table_overlap m (by omega)
      have hbe : lo = band := by rw [hlo] at hband; exact Option.some.inj hband
      obtain ⟨n1, rfl⟩ : ∃ n1, n = n1 + 1 := ⟨n - 1, by omega⟩
      have hcast : ((m + 1 : Nat) : Int) = (m : Int) + 1 := by push_cast; rfl
      obtain ⟨st, res, h1, h2, h3, h4, h5, h6⟩ := ih n1 (m + 1) hi (by omega) (by omega)
        (by rw [hcast]; exact hhi) (by rw [← hbe] at hhigh; omega)
      refine ⟨st, res, ?_, by omega, h3, h4, h5, h6⟩
      have hnl : ¬ temp < band.min := by omega
      rw [therm_walk_succ temp _ (n1 + 1) band hband, if_neg hnl, if_pos hhigh, ← hcast]
      exact h1
    · have hmax : temp < band.max := by omega
      exact ⟨_, band, therm_walk_in_band temp _ n band hband hmin hmax, le_refl _, by omega,
        hband, hmin, hmax⟩

/-- For a stored band in Cold..Hot and a temperature in `[INT_MIN, INT_MAX)` the
walk ends inside `therm_table`, at a band whose interval contains the
temperature. -/
theorem therm_walk_resolves (temp stat : Int) (hs0 : 0 ≤ stat) (hs4 : stat ≤ 4)
    (ht0 : INT_MIN ≤ temp) (ht1 : temp < INT_MAX) :
    ∃ st band, therm_walk temp BM_HEALTH_MAX stat = some st ∧ 0 ≤ st ∧ st ≤ 4 ∧
      therm_table_at st = some band ∧ band.min ≤ temp ∧ temp < band.max := by
  obtain ⟨m, rfl⟩ : ∃ m : Nat, stat = (m : Int) := ⟨stat.toNat, by omega⟩
  have hm4 : m ≤ 4 := by omega
  have hex : ∃ band, therm_table_at (m : Int) = some band := by
    have h : m = 0 ∨ m = 1 ∨ m = 2 ∨ m = 3 ∨ m = 4 := by omega
    rcases h with rfl | rfl | rfl | rfl | rfl
    · exact ⟨_, therm_table_at_cold⟩
    · exact ⟨_, therm_table_at_cool⟩
    · exact ⟨_, therm_table_at_good⟩
    · exact ⟨_, therm_table_at_warm⟩
    · exact ⟨_, therm_table_at_hot⟩
  obtain ⟨band, hband⟩ := hex
  by_cases hhigh : temp < band.max
  · obtain ⟨st, res, h1, h2, h3, h4, h5, h6⟩ :=
      therm_walk_down temp ht0 m 4 band hm4 hm4 hband hhigh
    exact ⟨st, res, h1, h2, by omega, h4, h5, h6⟩
  · have hmin : band.min ≤ temp := by
      have h : m = 0 ∨ m = 1 ∨ m = 2 ∨ m = 3 ∨ m = 4 := by omega
      rcases h with rfl | rfl | rfl | rfl | rfl
      · rw [show ((0 : Nat) : Int) = 0 from rfl, therm_table_at_cold] at hband
        rw [← Option.some.inj hband]; exact ht0
      · rw [show ((1 : Nat) : Int) = 1 from rfl, therm_table_at_cool] at hband
        rw [← Option.some.inj hband] at hhigh ⊢
        show (0 : Int) ≤ temp
        have : ¬ temp < 220 := hhigh
        omega
      · rw [show ((2 : Nat) : Int) = 2 from rfl, therm_table_at_good] at hband
        rw [← Option.some.inj hband] at hhigh ⊢
        show (200 : Int) ≤ temp
        have : ¬ temp < 450 := hhigh
        omega
      · rw [show ((3 : Nat) : Int) = 3 from rfl, therm_table_at_warm] at hband
        rw [← Option.some.inj hband] at hhigh ⊢
        show (430 : Int) ≤ temp
        have : ¬ temp < 550 := hhigh
        omega
      · rw [show ((4 : Nat) : Int) = 4 from rfl, therm_table_at_hot] at hband
        rw [← Option.some.inj hband] at hhigh ⊢
        exact absurd ht1 hhigh
    obtain ⟨st, res, h1, h2, h3, h4, h5, h6⟩ :=
      therm_walk_up temp ht1 (4 - m) 4 m band (by omega) (by omega) hband hmin
    exact ⟨st, res, h1, by omega, h3, h4, h5, h6⟩

/-! ## C6: no transition inside the stored band -/

theorem bm_check_therm_charging_in_band (s : State) (band : bm_therm_table)
    (rc_volt rc_cur : Int) (hband : therm_table_at s.therm_stat = some band)
    (hmin : band.min ≤ s.batt_temp) (hmax : s.batt_temp < band.max) :
    bm_check_therm_charging rc_volt rc_cur s = some s := by
  unfold bm_check_therm_charging
  have hw : therm_walk s.batt_temp BM_HEALTH_MAX s.therm_stat = some s.therm_stat :=
    therm_walk_in_band s.batt_temp s.therm_stat 4 band hband hmin hmax
  rw [hw]
  simp

theorem run_therm_in_band (band : bm_therm_table) (readings : List ThermReading) :
    ∀ s : State, therm_table_at s.therm_stat = some band →
      (∀ r ∈ readings, band.min ≤ r.temp ∧ r.temp < band.max) →
      ∃ t, run_therm s readings = some t ∧ t.therm_stat = s.therm_stat ∧
        t.bm_vote_fcc_table = s.bm_vote_fcc_table ∧
        t.bm_vote_fcc_reason = s.bm_vote_fcc_reason ∧
        t.bm_vote_fcc_value = s.bm_vote_fcc_value ∧
        t.sc_status = s.sc_status ∧ t.log = s.log := by
  induction readings with
  | nil => intro s _ _; exact ⟨s, rfl, rfl, rfl, rfl, rfl, rfl, rfl⟩
  | cons r rs ih =>
    intro s hband hall
    have hr := hall r (List.mem_cons_self r rs)
    have hstep := bm_check_therm_charging_in_band { s with batt_temp := r.temp } band
      r.rc_volt r.rc_cur hband hr.1 hr.2
    obtain ⟨t, h1, h2, h3, h4, h5, h6, h7⟩ := ih { s with batt_temp := r.temp } hband
      (fun r1 hr1 => hall r1 (List.mem_cons_of_mem r hr1))
    refine ⟨t, ?_, h2, h3, h4, h5, h6, h7⟩
    simp only [run_therm, hstep]
    exact h1

/-- C6: when the stored band `therm_stat` is one of Cold..Hot and `batt_temp`
lies in that band's interval `[min, max)`, `bm_check_therm_charging` returns
with the state exactly as it was (same `therm_stat`, vote table, recorded pair
and event log, so no `bm_set_property` call and no vote); and any sequence of
readings that all lie in that interval leaves `therm_stat`, the vote table, the
recorded pair and the event log unchanged. -/
theorem no_flap_in_band (s : State) (band : bm_therm_table) (rc_volt rc_cur : Int)
    (hband : therm_table_at s.therm_stat = some band)
    (hmin : band.min ≤ s.batt_temp) (hmax : s.batt_temp < band.max) :
    bm_check_therm_charging rc_volt rc_cur s = some s ∧
    ∀ readings : List ThermReading,
      (∀ r ∈ readings, band.min ≤ r.temp ∧ r.temp < band.max) →
      ∃ t, run_therm s readings = some t ∧ t.therm_stat = s.therm_stat ∧
        t.bm_vote_fcc_table = s.bm_vote_fcc_table ∧
        t.bm_vote_fcc_reason = s.bm_vote_fcc_reason ∧
        t.bm_vote_fcc_value = s.bm_vote_fcc_value ∧
        events_since s t = [] := by
  refine ⟨bm_check_therm_charging_in_band s band rc_volt rc_cur hband hmin hmax, ?_⟩
  intro readings hall
  obtain ⟨t, h1, h2, h3, h4, h5, _, h7⟩ := run_therm_in_band band readings s hband hall
  exact ⟨t, h1, h2, h3, h4, h5, by simp [events_since, h7]⟩

theorem no_flap_in_band_witness :
    bm_check_therm_charging (-5) (-5) (bm_init_state 250 1) = some (bm_init_state 250 1) ∧
    ∃ t, run_therm (bm_init_state 250 1)
        [ThermReading.mk 201 (-5) (-5), ThermReading.mk 449 0 0, ThermReading.mk 300 0 (-5)]
        = some t ∧ t.therm_stat = BM_HEALTH_GOOD :=
  ⟨(no_flap_in_band (bm_init_state 250 1) { min := 200, max := 450, cur := -EINVAL } (-5) (-5)
      rfl (by decide) (by decide)).1,
    by
      obtain ⟨t, h1, h2, _⟩ :=
        (no_flap_in_band (bm_init_state 250 1) { min := 200, max := 450, cur := -EINVAL }
          (-5) (-5) rfl (by decide) (by decide)).2
          [ThermReading.mk 201 (-5) (-5), ThermReading.mk 449 0 0, ThermReading.mk 300 0 (-5)]
          (by decide)
      exact ⟨t, h1, h2⟩⟩

/-! ## C7: multi-band catch-up from Cold to Hot -/

theorem bm_vote_fcc_log (rc : Int) (s : State) (reason : Nat) (fcc : Int) :
    (bm_vote_fcc rc s reason fcc).2.log = s.log ++ [Event.vote_fcc reason fcc] ∨
    (bm_vote_fcc rc s reason fcc).2.log = s.log ++ [Event.vote_fcc reason fcc,
      Event.set_property power_supply_property.CONSTANT_CHARGE_CURRENT_MAX
        (fcc_scan (s.bm_vote_fcc_table.set reason fcc)).1] := by
  unfold bm_vote_fcc bm_vote_fcc_update
  dsimp only
  split_ifs <;> simp

/-- C7: with `therm_stat = Cold`, one reading `550 ≤ batt_temp < INT_MAX` and
hardware writes that do not fail, a single `bm_check_therm_charging` returns
with `therm_stat = Hot`; the events of the call are one `VOLTAGE_MAX` write of
`LIM_VOLT = 4100000`, then one `bm_vote_fcc(THERM, cap)` with the Hot band's
cap `therm_table[Hot].cur = 0`, then at most one current write: exactly one
voltage write and one vote, not one per intermediate band. -/
theorem cold_to_hot_catch_up (s : State) (rc_volt rc_cur : Int)
    (hcold : s.therm_stat = BM_HEALTH_COLD)
    (h1 : 550 ≤ s.batt_temp) (h2 : s.batt_temp < INT_MAX)
    (hv : 0 ≤ rc_volt) (hc : 0 ≤ rc_cur) :
    ∃ t hot, bm_check_therm_charging rc_volt rc_cur s = some t ∧
      t.therm_stat = BM_HEALTH_HOT ∧
      therm_table_at BM_HEALTH_HOT = some hot ∧
      (events_since s t).filter is_voltage_write
        = [Event.set_property power_supply_property.VOLTAGE_MAX 4100000] ∧
      (events_since s t).filter is_vote = [Event.vote_fcc BM_REASON_THERM hot.cur] ∧
      (events_since s t).countP is_set_property ≤ 2 ∧
      (events_since s t).take 2 = [Event.set_property power_supply_property.VOLTAGE_MAX LIM_VOLT,
        Event.vote_fcc BM_REASON_THERM hot.cur] ∧
      t.bm_vote_fcc_table = s.bm_vote_fcc_table.set BM_REASON_THERM hot.cur := by
  have hw := therm_walk_cold_to_hot s.batt_temp h1 h2
  rw [← hcold] at hw
  have hnv : ¬ rc_volt < 0 := by omega
  obtain ⟨hk1, hk2, _⟩ := bm_vote_fcc_ok rc_cur
    { s with log := s.log ++ [Event.set_property power_supply_property.VOLTAGE_MAX LIM_VOLT] }
    BM_REASON_THERM 0 hc
  have hnc : ¬ (bm_vote_fcc rc_cur
    { s with log := s.log ++ [Event.set_property power_supply_property.VOLTAGE_MAX LIM_VOLT] }
    BM_REASON_THERM 0).1 < 0 := by omega
  have hres : bm_check_therm_charging rc_volt rc_cur s = some { (bm_vote_fcc rc_cur
      { s with log := s.log ++ [Event.set_property power_supply_property.VOLTAGE_MAX LIM_VOLT] }
      BM_REASON_THERM 0).2 with therm_stat := BM_HEALTH_HOT } := by
    unfold bm_check_therm_charging
    rw [hw]
    have hne : s.therm_stat ≠ BM_HEALTH_HOT := by rw [hcold]; decide
    have hcond : s.therm_stat ≤ BM_HEALTH_GOOD ∧ BM_HEALTH_HOT ≥ BM_HEALTH_WARM := by
      rw [hcold]; decide
    have hband : therm_table_at BM_HEALTH_HOT = some { min := 530, max := INT_MAX, cur := 0 } :=
      rfl
    simp only [hne, hband, hcond, hnv, hnc, ne_eq, not_false_eq_true, if_true, if_false,
      and_self]
  refine ⟨_, { min := 530, max := INT_MAX, cur := 0 }, hres, rfl, rfl, ?_⟩
  rcases bm_vote_fcc_log rc_cur
    { s with log := s.log ++ [Event.set_property power_supply_property.VOLTAGE_MAX LIM_VOLT] }
    BM_REASON_THERM 0 with hl | hl
  · simp only [events_since]
    rw [hl, hk2]
    simp [is_voltage_write, is_vote, is_set_property, LIM_VOLT]
  · simp only [events_since]
    rw [hl, hk2]
    simp [is_voltage_write, is_vote, is_set_property, LIM_VOLT]

theorem cold_to_hot_catch_up_witness :
    ∃ t, bm_check_therm_charging 0 0
        { bm_init_state 600 1 with therm_stat := BM_HEALTH_COLD } = some t ∧
      t.therm_stat = BM_HEALTH_HOT := by
  obtain ⟨t, _, h1, h2, _⟩ := cold_to_hot_catch_up
    { bm_init_state 600 1 with therm_stat := BM_HEALTH_COLD } 0 0 rfl (by decide) (by decide)
    (le_refl 0) (le_refl 0)
  exact ⟨t, h1, h2⟩

/-! ## The events of a band transition -/

theorem vote_stage_log (rc_cur : Int) (s1 : State) (cur stat : Int) :
    ∃ t tail,
      (if (bm_vote_fcc rc_cur s1 BM_REASON_THERM cur).1 < 0
        then some (bm_vote_fcc rc_cur s1 BM_REASON_THERM cur).2
        else some { (bm_vote_fcc rc_cur s1 BM_REASON_THERM cur).2 with therm_stat := stat })
        = some t ∧
      t.log = s1.log ++ tail ∧ tail.all (fun e => !is_voltage_write e) = true := by
  have hlog := bm_vote_fcc_log rc_cur s1 BM_REASON_THERM cur
  split_ifs
  · rcases hlog with hl | hl
    · exact ⟨_, [Event.vote_fcc BM_REASON_THERM cur], rfl, hl, by simp [is_voltage_write]⟩
    · exact ⟨_, [Event.vote_fcc BM_REASON_THERM cur,
        Event.set_property power_supply_property.CONSTANT_CHARGE_CURRENT_MAX
          (fcc_scan (s1.bm_vote_fcc_table.set BM_REASON_THERM cur)).1], rfl, hl,
        by simp [is_voltage_write]⟩
  · rcases hlog with hl | hl
    · exact ⟨_, [Event.vote_fcc BM_REASON_THERM cur], rfl, hl, by simp [is_voltage_write]⟩
    · exact ⟨_, [Event.vote_fcc BM_REASON_THERM cur,
        Event.set_property power_supply_property.CONSTANT_CHARGE_CURRENT_MAX
          (fcc_scan (s1.bm_vote_fcc_table.set BM_REASON_THERM cur)).1], rfl, hl,
        by simp [is_voltage_write]⟩

/-- On a transition the log grows by the voltage write, if the crossing calls
for one, followed by events none of which is a voltage write; when the voltage
write fails nothing else changes. -/
theorem therm_transition_log (s : State) (stat : Int) (band : bm_therm_table)
    (rc_volt rc_cur : Int)
    (hwalk : therm_walk s.batt_temp BM_HEALTH_MAX s.therm_stat = some stat)
    (hband : therm_table_at stat = some band) (hne : s.therm_stat ≠ stat) :
    ∃ t tail, bm_check_therm_charging rc_volt rc_cur s = some t ∧
      t.log = s.log ++ voltage_events s.therm_stat stat ++ tail ∧
      tail.all (fun e => !is_voltage_write e) = true ∧
      (voltage_events s.therm_stat stat ≠ [] → rc_volt < 0 →
        t = { s with log := s.log ++ voltage_events s.therm_stat stat } ∧ tail = []) := by
  unfold bm_check_therm_charging
  rw [hwalk]
  simp only [hne, hband, ne_eq, not_false_eq_true, if_true]
  by_cases c1 : s.therm_stat ≤ BM_HEALTH_GOOD ∧ stat ≥ BM_HEALTH_WARM
  · have hve : voltage_events s.therm_stat stat
        = [Event.set_property power_supply_property.VOLTAGE_MAX LIM_VOLT] := by
      simp only [voltage_events, c1, and_self, if_true]
    rw [hve]
    simp only [c1, and_self, if_true]
    by_cases hf : rc_volt < 0
    · simp only [hf, if_true]
      exact ⟨_, [], rfl, by simp, rfl, fun _ _ => ⟨rfl, rfl⟩⟩
    · simp only [hf, if_false]
      obtain ⟨t, tail, h1, h2, h3⟩ := vote_stage_log rc_cur
        { s with log := s.log ++ [Event.set_property power_supply_property.VOLTAGE_MAX LIM_VOLT] }
        band.cur stat
      exact ⟨t, tail, h1, h2, h3, fun _ h => h.elim⟩
  · by_cases c2 : s.therm_stat ≥ BM_HEALTH_WARM ∧ stat ≤ BM_HEALTH_GOOD
    · have hve : voltage_events s.therm_stat stat
          = [Event.set_property power_supply_property.VOLTAGE_MAX NORM_VOLT] := by
        simp only [voltage_events, c1, c2, and_self, if_true, if_false]
      rw [hve]
      simp only [c1, c2, and_self, if_true, if_false]
      by_cases hf : rc_volt < 0
      · simp only [hf, if_true]
        exact ⟨_, [], rfl, by simp, rfl, fun _ _ => ⟨rfl, rfl⟩⟩
      · simp only [hf, if_false]
        obtain ⟨t, tail, h1, h2, h3⟩ := vote_stage_log rc_cur
          { s with log := s.log ++
            [Event.set_property power_supply_property.VOLTAGE_MAX NORM_VOLT] }
          band.cur stat
        exact ⟨t, tail, h1, h2, h3, fun _ h => h.elim⟩
    · have hve : voltage_events s.therm_stat stat = [] := by
        simp only [voltage_events, c1, c2, if_false]
      rw [hve]
      simp only [c1, c2, if_false]
      have h0 : ¬ ((0 : Int) < 0) := by decide
      simp only [h0, if_false]
      obtain ⟨t, tail, h1, h2, h3⟩ := vote_stage_log rc_cur s band.cur stat
      exact ⟨t, tail, h1, by rw [h2]; simp, h3, fun h _ => (h trivial).elim⟩

theorem voltage_events_filter (old new : Int) :
    (voltage_events old new).filter is_voltage_write = voltage_events old new := by
  unfold voltage_events
  split_ifs <;> simp [is_voltage_write]

theorem not_voltage_filter (tail : List Event)
    (h : tail.all (fun e => !is_voltage_write e) = true) :
    tail.filter is_voltage_write = [] := by
  rw [List.filter_eq_nil_iff]
  intro e he
  have := List.all_eq_true.mp h e he
  simpa using this

theorem not_voltage_mem (tail : List Event) (e : Event)
    (h : tail.all (fun e => !is_voltage_write e) = true) (hv : is_voltage_write e = true) :
    e ∉ tail := by
  intro he
  have := List.all_eq_true.mp h e he
  simp [hv] at this

/-! ## C8: a failed voltage write aborts the transition -/

/-- C8: when the band resolved by the walk lies on the other side of the
Good/Warm boundary from the stored band and the `VOLTAGE_MAX` write fails,
`bm_check_therm_charging` returns with `therm_stat`, the whole vote table and
the recorded pair unchanged; the only event of the call is that voltage write:
`bm_vote_fcc` is not entered and no current-limit write is issued. -/
theorem therm_rollback_on_voltage_failure (s : State) (stat : Int) (band : bm_therm_table)
    (rc_volt rc_cur : Int)
    (hwalk : therm_walk s.batt_temp BM_HEALTH_MAX s.therm_stat = some stat)
    (hband : therm_table_at stat = some band)
    (hcross : (s.therm_stat ≤ BM_HEALTH_GOOD ∧ stat ≥ BM_HEALTH_WARM) ∨
      (s.therm_stat ≥ BM_HEALTH_WARM ∧ stat ≤ BM_HEALTH_GOOD))
    (hfail : rc_volt < 0) :
    ∃ t, bm_check_therm_charging rc_volt rc_cur s = some t ∧
      t.therm_stat = s.therm_stat ∧
      t.bm_vote_fcc_table = s.bm_vote_fcc_table ∧
      t.bm_vote_fcc_reason = s.bm_vote_fcc_reason ∧
      t.bm_vote_fcc_value = s.bm_vote_fcc_value ∧
      (events_since s t).any is_vote = false ∧
      (events_since s t).any is_current_write = false ∧
      (events_since s t = [Event.set_property power_supply_property.VOLTAGE_MAX LIM_VOLT] ∨
        events_since s t = [Event.set_property power_supply_property.VOLTAGE_MAX NORM_VOLT]) := by
  have hne : s.therm_stat ≠ stat := by
    simp only [BM_HEALTH_GOOD, BM_HEALTH_WARM] at hcross
    omega
  obtain ⟨t, tail, h1, _, _, h4⟩ := therm_transition_log s stat band rc_volt rc_cur hwalk hband hne
  have hve : voltage_events s.therm_stat stat
        = [Event.set_property power_supply_property.VOLTAGE_MAX LIM_VOLT] ∨
      voltage_events s.therm_stat stat
        = [Event.set_property power_supply_property.VOLTAGE_MAX NORM_VOLT] := by
    unfold voltage_events
    rcases hcross with hc | hc
    · left; simp only [hc, and_self, if_true]
    · right
      have hn : ¬ (s.therm_stat ≤ BM_HEALTH_GOOD ∧ stat ≥ BM_HEALTH_WARM) := by
        simp only [BM_HEALTH_GOOD, BM_HEALTH_WARM] at hc ⊢
        omega
      simp only [hn, hc, and_self, if_true, if_false]
  have hnil : voltage_events s.therm_stat stat ≠ [] := by
    rcases hve with h | h <;> rw [h] <;> simp
  obtain ⟨ht, _⟩ := h4 hnil hfail
  refine ⟨t, h1, ?_, ?_, ?_, ?_, ?_, ?_, ?_⟩
  · rw [ht]
  · rw [ht]
  · rw [ht]
  · rw [ht]
  · rw [ht]; rcases hve with h | h <;> rw [h] <;> simp [events_since, is_vote]
  · rw [ht]; rcases hve with h | h <;> rw [h] <;> simp [events_since, is_current_write]
  · rw [ht]; rcases hve with h | h <;> rw [h] <;> simp [events_since]

theorem therm_rollback_on_voltage_failure_witness :
    ∃ t, bm_check_therm_charging (-5) 0 (bm_init_state 460 1) = some t ∧
      t.therm_stat = BM_HEALTH_GOOD ∧
      t.bm_vote_fcc_table = bm_vote_fcc_table_init := by
  obtain ⟨t, h1, h2, h3, _⟩ := therm_rollback_on_voltage_failure (bm_init_state 460 1)
    BM_HEALTH_WARM { min := 430, max := 550, cur := 710000 } (-5) 0
    (by decide) rfl (by decide) (by decide)
  exact ⟨t, h1, h2, h3⟩

/-! ## C10: which crossings write the voltage ceiling -/

/-- C10: on every transition (the band resolved by the walk differs from the
stored band), whatever the hardware return codes, `VOLTAGE_MAX` is written with
`LIM_VOLT = 4100000` exactly when the old band is at most Good and the new one
at least Warm, with `NORM_VOLT = 4400000` exactly when the old band is at least
Warm and the new one at most Good, and no voltage write is issued when both
bands are in {Cold, Cool, Good} or both in {Warm, Hot}; at most one voltage
write is issued. -/
theorem voltage_write_on_transition (s : State) (stat : Int) (band : bm_therm_table)
    (rc_volt rc_cur : Int)
    (hwalk : therm_walk s.batt_temp BM_HEALTH_MAX s.therm_stat = some stat)
    (hband : therm_table_at stat = some band) (hne : s.therm_stat ≠ stat) :
    ∃ t, bm_check_therm_charging rc_volt rc_cur s = some t ∧
      (Event.set_property power_supply_property.VOLTAGE_MAX 4100000 ∈ events_since s t ↔
        (s.therm_stat ≤ BM_HEALTH_GOOD ∧ stat ≥ BM_HEALTH_WARM)) ∧
      (Event.set_property power_supply_property.VOLTAGE_MAX 4400000 ∈ events_since s t ↔
        (s.therm_stat ≥ BM_HEALTH_WARM ∧ stat ≤ BM_HEALTH_GOOD)) ∧
      (((s.therm_stat ≤ BM_HEALTH_GOOD ∧ stat ≤ BM_HEALTH_GOOD) ∨
          (s.therm_stat ≥ BM_HEALTH_WARM ∧ stat ≥ BM_HEALTH_WARM)) →
        (events_since s t).filter is_voltage_write = []) ∧
      (events_since s t).filter is_voltage_write = voltage_events s.therm_stat stat ∧
      ((events_since s t).filter is_voltage_write).length ≤ 1 := by
  obtain ⟨t, tail, h1, h2, h3, _⟩ :=
    therm_transition_log s stat band rc_volt rc_cur hwalk hband hne
  have hev : events_since s t = voltage_events s.therm_stat stat ++ tail :=
    events_since_append s t _ (by rw [h2, List.append_assoc])
  have hfil : (events_since s t).filter is_voltage_write = voltage_events s.therm_stat stat := by
    rw [hev, List.filter_append, voltage_events_filter, not_voltage_filter tail h3,
      List.append_nil]
  have hL := not_voltage_mem tail
    (Event.set_property power_supply_property.VOLTAGE_MAX 4100000) h3 rfl
  have hN := not_voltage_mem tail
    (Event.set_property power_supply_property.VOLTAGE_MAX 4400000) h3 rfl
  refine ⟨t, h1, ?_, ?_, ?_, hfil, ?_⟩
  · rw [hev, List.mem_append]
    unfold voltage_events
    split_ifs with c1 c2
    · simp [c1, LIM_VOLT]
    · simp [c1, hL, NORM_VOLT]
    · simp [c1, hL]
  · rw [hev, List.mem_append]
    unfold voltage_events
    split_ifs with c1 c2
    · have hn : ¬ (s.therm_stat ≥ BM_HEALTH_WARM ∧ stat ≤ BM_HEALTH_GOOD) := by
        simp only [BM_HEALTH_GOOD, BM_HEALTH_WARM] at c1 ⊢
        omega
      simp [hn, hN, LIM_VOLT]
    · simp [c2, NORM_VOLT]
    · simp [c2, hN]
  · intro hsame
    rw [hfil]
    unfold voltage_events
    simp only [BM_HEALTH_GOOD, BM_HEALTH_WARM] at hsame ⊢
    have n1 : ¬ (s.therm_stat ≤ 2 ∧ stat ≥ 3) := by omega
    have n2 : ¬ (s.therm_stat ≥ 3 ∧ stat ≤ 2) := by omega
    simp only [n1, n2, if_false]
  · rw [hfil]
    unfold voltage_events
    split_ifs <;> simp

theorem voltage_write_on_transition_witness :
    ∃ t, bm_check_therm_charging 0 0 (bm_init_state 460 1) = some t ∧
      (events_since (bm_init_state 460 1) t).filter is_voltage_write
        = [Event.set_property power_supply_property.VOLTAGE_MAX LIM_VOLT] := by
  obtain ⟨t, h1, _, _, _, h5, _⟩ := voltage_write_on_transition (bm_init_state 460 1)
    BM_HEALTH_WARM { min := 430, max := 550, cur := 710000 } 0 0
    (by decide) rfl (by decide)
  exact ⟨t, h1, h5⟩

/-! ## C9: the step-charge latch is sticky -/

theorem step_call_engaged (s : State) (c : StepCall) (hc : c.chg_present ≠ 0)
    (hs : s.sc_status = true) :
    bm_check_step_charging c.hw_rc { s with chg_present := c.chg_present } c.volt
      = { s with chg_present := c.chg_present } := by
  unfold bm_check_step_charging
  simp [hc, hs]

theorem step_call_below (s : State) (c : StepCall) (hc : c.chg_present ≠ 0)
    (hv : c.volt < SC_VOLT) :
    bm_check_step_charging c.hw_rc { s with chg_present := c.chg_present } c.volt
      = { s with chg_present := c.chg_present } := by
  unfold bm_check_step_charging
  have hn : ¬ c.volt ≥ SC_VOLT := by omega
  simp [hc, hn]

theorem step_engages_present (rc : Int) (s1 : State) (volt : Int)
    (hc : s1.chg_present ≠ 0) (hrc : 0 ≤ rc)
    (hlen : s1.bm_vote_fcc_table.length = BM_REASON_MAX)
    (hs : s1.sc_status = false) (hv : volt ≥ SC_VOLT) :
    step_engaged (bm_check_step_charging rc s1 volt) ∧
    (bm_check_step_charging rc s1 volt).bm_vote_fcc_table.length = BM_REASON_MAX := by
  obtain ⟨h1, h2, _⟩ := bm_vote_fcc_ok rc s1 BM_REASON_STEP SC_CURRENT hrc
  have hn : ¬ (bm_vote_fcc rc s1 BM_REASON_STEP SC_CURRENT).1 < 0 := by omega
  have h2lt : BM_REASON_STEP < s1.bm_vote_fcc_table.length := by rw [hlen]; decide
  have hcond : s1.sc_status = false ∧ volt ≥ SC_VOLT := ⟨hs, hv⟩
  have hres : bm_check_step_charging rc s1 volt
      = { (bm_vote_fcc rc s1 BM_REASON_STEP SC_CURRENT).2 with sc_status := true } := by
    unfold bm_check_step_charging
    rw [if_neg hc, if_pos hcond]
    simp only [hn, if_false]
  rw [hres]
  unfold step_engaged
  refine ⟨⟨rfl, ?_⟩, ?_⟩
  · show (bm_vote_fcc rc s1 BM_REASON_STEP SC_CURRENT).2.bm_vote_fcc_table.getD
      BM_REASON_STEP 0 = SC_CURRENT
    rw [h2]
    simp [List.getD_eq_getElem?_getD, List.getElem?_set, h2lt]
  · show (bm_vote_fcc rc s1 BM_REASON_STEP SC_CURRENT).2.bm_vote_fcc_table.length
      = BM_REASON_MAX
    rw [h2]
    simpa using hlen

theorem step_releases_absent (rc : Int) (s1 : State) (volt : Int)
    (hc : s1.chg_present = 0) (hrc : 0 ≤ rc)
    (hlen : s1.bm_vote_fcc_table.length = BM_REASON_MAX)
    (hs : s1.sc_status = true) :
    step_released (bm_check_step_charging rc s1 volt) := by
  obtain ⟨h1, h2, _⟩ := bm_vote_fcc_ok rc s1 BM_REASON_STEP (-EINVAL) hrc
  have hn : ¬ (bm_vote_fcc rc s1 BM_REASON_STEP (-EINVAL)).1 < 0 := by omega
  have h2lt : BM_REASON_STEP < s1.bm_vote_fcc_table.length := by rw [hlen]; decide
  have hres : bm_check_step_charging rc s1 volt
      = { (bm_vote_fcc rc s1 BM_REASON_STEP (-EINVAL)).2 with sc_status := false } := by
    unfold bm_check_step_charging
    rw [if_pos hc, if_pos hs]
    simp only [hn, if_false]
  rw [hres]
  unfold step_released
  refine ⟨rfl, ?_⟩
  show (bm_vote_fcc rc s1 BM_REASON_STEP (-EINVAL)).2.bm_vote_fcc_table.getD
    BM_REASON_STEP 0 = -EINVAL
  rw [h2]
  simp [List.getD_eq_getElem?_getD, List.getElem?_set, h2lt]

theorem step_call_engages (s : State) (c : StepCall) (hc : c.chg_present ≠ 0)
    (hrc : 0 ≤ c.hw_rc) (hlen : s.bm_vote_fcc_table.length = BM_REASON_MAX)
    (hs : s.sc_status = false) (hv : c.volt ≥ SC_VOLT) :
    step_engaged
      (bm_check_step_charging c.hw_rc { s with chg_present := c.chg_present } c.volt) ∧
    (bm_check_step_charging c.hw_rc { s with chg_present := c.chg_present }
      c.volt).bm_vote_fcc_table.length = BM_REASON_MAX :=
  step_engages_present c.hw_rc { s with chg_present := c.chg_present } c.volt hc hrc hlen hs hv

theorem run_step_latch (calls : List StepCall) :
    ∀ s : State, s.bm_vote_fcc_table.length = BM_REASON_MAX →
      (step_engaged s ∨ step_released s) →
      (∀ c ∈ calls, c.chg_present ≠ 0 ∧ 0 ≤ c.hw_rc) →
      ((step_engaged s ∨ ∃ c ∈ calls, c.volt ≥ SC_VOLT) → step_engaged (run_step s calls)) ∧
      ((step_released s ∧ ∀ c ∈ calls, c.volt < SC_VOLT) → step_released (run_step s calls)) := by
  induction calls with
  | nil =>
    intro s _ _ _
    refine ⟨fun h => ?_, fun h => h.1⟩
    rcases h with h | ⟨c, hc, _⟩
    · exact h
    · exact absurd hc (List.not_mem_nil c)
  | cons c cs ih =>
    intro s hlen hst hall
    obtain ⟨hcp, hrc⟩ := hall c (List.mem_cons_self c cs)
    have hrest : ∀ c1 ∈ cs, c1.chg_present ≠ 0 ∧ 0 ≤ c1.hw_rc :=
      fun c1 hc1 => hall c1 (List.mem_cons_of_mem c hc1)
    have hrun : run_step s (c :: cs) = run_step
        (bm_check_step_charging c.hw_rc { s with chg_present := c.chg_present } c.volt) cs := rfl
    rw [hrun]
    rcases hst with hst | hst
    · -- already engaged: the call changes nothing but `chg_present`
      have heq := step_call_engaged s c hcp hst.1
      have heng : step_engaged ({ s with chg_present := c.chg_present } : State) := hst
      rw [heq]
      have hih := ih { s with chg_present := c.chg_present } hlen (Or.inl heng) hrest
      refine ⟨fun _ => hih.1 (Or.inl heng), fun h => ?_⟩
      have h1 := hst.1
      have h2 := h.1.1
      rw [h1] at h2
      exact absurd h2 (by decide)
    · by_cases hv : c.volt ≥ SC_VOLT
      · obtain ⟨heng, hlen2⟩ := step_call_engages s c hcp hrc hlen hst.1 hv
        have hih := ih _ hlen2 (Or.inl heng) hrest
        refine ⟨fun _ => hih.1 (Or.inl heng), fun h => ?_⟩
        have := h.2 c (List.mem_cons_self c cs)
        omega
      · have hlt : c.volt < SC_VOLT := by omega
        have heq := step_call_below s c hcp hlt
        have hrel : step_released ({ s with chg_present := c.chg_present } : State) := hst
        rw [heq]
        have hih := ih { s with chg_present := c.chg_present } hlen (Or.inr hrel) hrest
        refine ⟨fun h => ?_, fun h => ?_⟩
        · rcases h with h | ⟨c1, hc1, hv1⟩
          · have h1 := hst.1
            have h2 := h.1
            rw [h1] at h2
            exact absurd h2 (by decide)
          · rcases List.mem_cons.mp hc1 with rfl | hmem
            · exact absurd hv1 hv
            · exact hih.1 (Or.inr ⟨c1, hmem, hv1⟩)
        · exact hih.2 ⟨hrel, fun c1 hc1 => h.2 c1 (List.mem_cons_of_mem c hc1)⟩

/-- C9: from a state with `sc_status = false` and the Step slot absent, along
any sequence of `bm_check_step_charging` calls made with `chg_present` non-zero
and hardware writes that do not fail, after every prefix: if some call so far
had `volt ≥ SC_VOLT = 4200000` then `sc_status` is true and the Step slot holds
`SC_CURRENT = 2400000`, otherwise `sc_status` is false and the slot is absent.
So the latch engages at the first call with `volt ≥ SC_VOLT` and stays engaged
whatever the later voltages; a call with `chg_present` non-zero on an engaged
latch changes nothing, whatever the hardware does, so the latch is released
only by a call with `chg_present = 0`, which (its write not failing) clears
`sc_status` and makes the Step slot absent. -/
theorem step_latch_sticky (s : State) (calls : List StepCall)
    (hlen : s.bm_vote_fcc_table.length = BM_REASON_MAX)
    (hsc : s.sc_status = false)
    (hslot : s.bm_vote_fcc_table.getD BM_REASON_STEP 0 = -EINVAL)
    (hcalls : ∀ c ∈ calls, c.chg_present ≠ 0 ∧ 0 ≤ c.hw_rc) (n : Nat) :
    ((∃ c ∈ calls.take n, c.volt ≥ 4200000) →
      (run_step s (calls.take n)).sc_status = true ∧
      (run_step s (calls.take n)).bm_vote_fcc_table.getD BM_REASON_STEP 0 = 2400000) ∧
    ((∀ c ∈ calls.take n, c.volt < 4200000) →
      (run_step s (calls.take n)).sc_status = false ∧
      (run_step s (calls.take n)).bm_vote_fcc_table.getD BM_REASON_STEP 0 = -EINVAL) ∧
    (∀ (st : State) (c : StepCall), st.sc_status = true → c.chg_present ≠ 0 →
      bm_check_step_charging c.hw_rc { st with chg_present := c.chg_present } c.volt
        = { st with chg_present := c.chg_present }) ∧
    (∀ (st : State) (rc volt : Int), st.bm_vote_fcc_table.length = BM_REASON_MAX →
      st.sc_status = true → 0 ≤ rc →
      (bm_check_step_charging rc { st with chg_present := 0 } volt).sc_status = false ∧
      (bm_check_step_charging rc { st with chg_present := 0 } volt).bm_vote_fcc_table.getD
        BM_REASON_STEP 0 = -EINVAL) := by
  have hmain := run_step_latch (calls.take n) s hlen (Or.inr ⟨hsc, hslot⟩)
    (fun c hc => hcalls c (List.mem_of_mem_take hc))
  refine ⟨fun h => hmain.1 (Or.inr h), fun h => hmain.2 ⟨⟨hsc, hslot⟩, h⟩, ?_, ?_⟩
  · intro st c hst hc
    exact step_call_engaged st c hc hst
  · intro st rc volt hl hst hrc
    exact step_releases_absent rc { st with chg_present := 0 } volt rfl hrc hl hst

theorem step_latch_sticky_witness :
    (run_step (bm_init_state 250 1) ([StepCall.mk 1 4000000 0, StepCall.mk 1 4190000 0,
        StepCall.mk 1 4210000 0, StepCall.mk 1 4050000 0].take 2)).sc_status = false ∧
    (run_step (bm_init_state 250 1) ([StepCall.mk 1 4000000 0, StepCall.mk 1 4190000 0,
        StepCall.mk 1 4210000 0, StepCall.mk 1 4050000 0].take 3)).sc_status = true ∧
    (run_step (bm_init_state 250 1) ([StepCall.mk 1 4000000 0, StepCall.mk 1 4190000 0,
        StepCall.mk 1 4210000 0, StepCall.mk 1 4050000 0].take 4)).sc_status = true ∧
    (run_step (bm_init_state 250 1) ([StepCall.mk 1 4000000 0, StepCall.mk 1 4190000 0,
        StepCall.mk 1 4210000 0, StepCall.mk 1 4050000 0].take 4)).bm_vote_fcc_table.getD
        BM_REASON_STEP 0 = 2400000 :=
  ⟨((step_latch_sticky (bm_init_state 250 1) [StepCall.mk 1 4000000 0, StepCall.mk 1 4190000 0,
        StepCall.mk 1 4210000 0, StepCall.mk 1 4050000 0] rfl rfl rfl (by decide) 2).2.1
      (by decide)).1,
    ((step_latch_sticky (bm_init_state 250 1) [StepCall.mk 1 4000000 0, StepCall.mk 1 4190000 0,
        StepCall.mk 1 4210000 0, StepCall.mk 1 4050000 0] rfl rfl rfl (by decide) 3).1
      (by decide)).1,
    ((step_latch_sticky (bm_init_state 250 1) [StepCall.mk 1 4000000 0, StepCall.mk 1 4190000 0,
        StepCall.mk 1 4210000 0, StepCall.mk 1 4050000 0] rfl rfl rfl (by decide) 4).1
      (by decide)).1,
    ((step_latch_sticky (bm_init_state 250 1) [StepCall.mk 1 4000000 0, StepCall.mk 1 4190000 0,
        StepCall.mk 1 4210000 0, StepCall.mk 1 4050000 0] rfl rfl rfl (by decide) 4).1
      (by decide)).2⟩

/-! ## C14: when the arbiter writes to the hardware -/

theorem bm_vote_fcc_update_events (rc : Int) (s : State) :
    events_since s (bm_vote_fcc_update rc s).2 =
      if (fcc_scan s.bm_vote_fcc_table).1 ≠ s.bm_vote_fcc_value then
        [Event.set_property power_supply_property.CONSTANT_CHARGE_CURRENT_MAX
          (fcc_scan s.bm_vote_fcc_table).1]
      else [] := by
  unfold bm_vote_fcc_update
  dsimp only
  split_ifs <;> simp_all [events_since]

/-- C14, counterexample: with the table `[3550000, 710000, -EINVAL, 710000]` and
the recorded pair `(THERM, 710000)` the winning pair is `(LCD, 710000)`, which
differs from the recorded pair in its reason only; `bm_vote_fcc_update` issues
no `bm_set_property` call and just records the new reason. -/
theorem update_same_value_no_write :
    fcc_scan [3550000, 710000, -EINVAL, 710000] = (710000, 1) ∧
    ((1 : Int), (710000 : Int)) ≠ ((3 : Int), (710000 : Int)) ∧
    events_since
      { bm_init_state 250 1 with
        bm_vote_fcc_table := [3550000, 710000, -EINVAL, 710000]
        bm_vote_fcc_reason := 3
        bm_vote_fcc_value := 710000 }
      (bm_vote_fcc_update 0
        { bm_init_state 250 1 with
          bm_vote_fcc_table := [3550000, 710000, -EINVAL, 710000]
          bm_vote_fcc_reason := 3
          bm_vote_fcc_value := 710000 }).2 = [] ∧
    (bm_vote_fcc_update 0
      { bm_init_state 250 1 with
        bm_vote_fcc_table := [3550000, 710000, -EINVAL, 710000]
        bm_vote_fcc_reason := 3
        bm_vote_fcc_value := 710000 }).2.bm_vote_fcc_reason = 1 := by
  decide

/-- C14, amended: for every vote table and recorded pair, `bm_vote_fcc_update`
calls `bm_set_property(CONSTANT_CHARGE_CURRENT_MAX)` exactly when the winning
value differs from the recorded `bm_vote_fcc_value`, and then once, with the
winning value; when the winning value equals the recorded one no write is
issued, also when the winning reason differs: the call then only records the
winning reason and returns 0. -/
theorem update_writes_iff_value_differs (s : State) (rc : Int) :
    ((events_since s (bm_vote_fcc_update rc s).2).any is_set_property = true ↔
      (fcc_scan s.bm_vote_fcc_table).1 ≠ s.bm_vote_fcc_value) ∧
    ((fcc_scan s.bm_vote_fcc_table).1 ≠ s.bm_vote_fcc_value →
      events_since s (bm_vote_fcc_update rc s).2 =
        [Event.set_property power_supply_property.CONSTANT_CHARGE_CURRENT_MAX
          (fcc_scan s.bm_vote_fcc_table).1]) ∧
    ((fcc_scan s.bm_vote_fcc_table).1 = s.bm_vote_fcc_value →
      events_since s (bm_vote_fcc_update rc s).2 = [] ∧
      (bm_vote_fcc_update rc s).1 = 0 ∧
      (bm_vote_fcc_update rc s).2.bm_vote_fcc_reason = (fcc_scan s.bm_vote_fcc_table).2 ∧
      (bm_vote_fcc_update rc s).2.bm_vote_fcc_value = s.bm_vote_fcc_value) := by
  have hev := bm_vote_fcc_update_events rc s
  refine ⟨?_, ?_, ?_⟩
  · rw [hev]
    by_cases h : (fcc_scan s.bm_vote_fcc_table).1 = s.bm_vote_fcc_value
    · simp [h]
    · simp [h, is_set_property]
  · intro h
    rw [hev, if_pos h]
  · intro h
    refine ⟨by rw [hev]; simp [h], ?_⟩
    unfold bm_vote_fcc_update
    dsimp only
    by_cases h2 : (fcc_scan s.bm_vote_fcc_table).2 = s.bm_vote_fcc_reason
    · simp [h, h2]
    · simp [h, h2]

/-! ## C18: which slots count as absent -/

/-- C18, counterexample: with the table `[3550000, -5, -EINVAL, -EINVAL]` the
scan selects slot LCD with the value `-5`, and `bm_vote_fcc_update` writes `-5`
to the hardware and records the pair `(LCD, -5)`. -/
theorem negative_vote_selected :
    fcc_scan [3550000, -5, -EINVAL, -EINVAL] = (-5, 1) ∧
    events_since
      { bm_init_state 250 1 with bm_vote_fcc_table := [3550000, -5, -EINVAL, -EINVAL] }
      (bm_vote_fcc_update 0
        { bm_init_state 250 1 with
          bm_vote_fcc_table := [3550000, -5, -EINVAL, -EINVAL] }).2
      = [Event.set_property power_supply_property.CONSTANT_CHARGE_CURRENT_MAX (-5)] ∧
    (bm_vote_fcc_update 0
      { bm_init_state 250 1 with
        bm_vote_fcc_table := [3550000, -5, -EINVAL, -EINVAL] }).2.bm_vote_fcc_reason = 1 ∧
    (bm_vote_fcc_update 0
      { bm_init_state 250 1 with
        bm_vote_fcc_table := [3550000, -5, -EINVAL, -EINVAL] }).2.bm_vote_fcc_value = -5 := by
  decide

/-- C18, amended: for every vote table, `bm_vote_fcc_update` treats exactly the
slots holding `-EINVAL = -22` as absent: such a slot is never the winning
reason and `-EINVAL` is never the winning value; a slot holding any other
negative value is a present vote, so the winning value is then negative (the
minimum of the present entries, at the lowest index holding it) and is written
to the hardware whenever it differs from the recorded value. -/
theorem only_einval_is_absent (s : State) (rc : Int) :
    (∀ i : Nat, i < BM_REASON_MAX → s.bm_vote_fcc_table.getD i 0 = -EINVAL →
      (fcc_scan s.bm_vote_fcc_table).2 ≠ (i : Int)) ∧
    (fcc_scan s.bm_vote_fcc_table).1 ≠ -EINVAL ∧
    (∀ i : Nat, i < BM_REASON_MAX → s.bm_vote_fcc_table.getD i 0 < 0 →
      s.bm_vote_fcc_table.getD i 0 ≠ -EINVAL →
      (fcc_scan s.bm_vote_fcc_table).1 < 0 ∧
      is_min_present s.bm_vote_fcc_table (fcc_scan s.bm_vote_fcc_table).1 ∧
      is_lowest_reason s.bm_vote_fcc_table (fcc_scan s.bm_vote_fcc_table).1
        (fcc_scan s.bm_vote_fcc_table).2 ∧
      ((fcc_scan s.bm_vote_fcc_table).1 ≠ s.bm_vote_fcc_value →
        events_since s (bm_vote_fcc_update rc s).2 =
          [Event.set_property power_supply_property.CONSTANT_CHARGE_CURRENT_MAX
            (fcc_scan s.bm_vote_fcc_table).1])) := by
  refine ⟨?_, ?_, ?_⟩
  · intro i _ habs hwin
    rw [fcc_scan_eq_upto] at hwin
    rcases fcc_scan_upto_spec s.bm_vote_fcc_table BM_REASON_MAX with
      ⟨heq, _⟩ | ⟨i0, _, heq, hp, _⟩
    · rw [heq] at hwin
      simp only [EINVAL] at hwin
      omega
    · rw [heq] at hwin
      have hi : i0 = i := by
        have : (i0 : Int) = (i : Int) := hwin
        omega
      rw [hi] at hp
      exact hp habs
  · rw [fcc_scan_eq_upto]
    rcases fcc_scan_upto_spec s.bm_vote_fcc_table BM_REASON_MAX with
      ⟨heq, _⟩ | ⟨i0, _, heq, hp, _⟩
    · rw [heq]; decide
    · rw [heq]; exact hp
  · intro i hi hneg hne
    have hpres : present s.bm_vote_fcc_table i := ⟨hi, hne⟩
    have hlt : s.bm_vote_fcc_table.getD i 0 < INT_MAX := by
      simp only [INT_MAX]; omega
    obtain ⟨hmin, hlow⟩ := fcc_scan_min s.bm_vote_fcc_table i hpres hlt
    have hle := fcc_scan_fst_le s.bm_vote_fcc_table i hpres
    refine ⟨by omega, hmin, hlow, fun hdiff => ?_⟩
    rw [bm_vote_fcc_update_events, if_pos hdiff]

theorem only_einval_is_absent_witness :
    (fcc_scan [3550000, -5, -EINVAL, -EINVAL]).1 < 0 ∧
    (fcc_scan [3550000, -5, -EINVAL, -EINVAL]).2 ≠ ((2 : Nat) : Int) :=
  ⟨((only_einval_is_absent
      { bm_init_state 250 1 with bm_vote_fcc_table := [3550000, -5, -EINVAL, -EINVAL] }
      0).2.2 1 (by decide) (by decide) (by decide)).1,
    (only_einval_is_absent
      { bm_init_state 250 1 with bm_vote_fcc_table := [3550000, -5, -EINVAL, -EINVAL] }
      0).1 2 (by decide) (by decide)⟩

theorem update_writes_iff_value_differs_witness :
    events_since (bm_init_state 250 1) (bm_vote_fcc_update 0 (bm_init_state 250 1)).2 =
      [Event.set_property power_supply_property.CONSTANT_CHARGE_CURRENT_MAX
        (fcc_scan (bm_init_state 250 1).bm_vote_fcc_table).1] :=
  (update_writes_iff_value_differs (bm_init_state 250 1) 0).2.1 (by decide)

/-! ## C17: the recorded value is the last value pushed to the hardware -/

theorem bm_vote_fcc_value_pushed (rc : Int) (s : State) (reason : Nat) (fcc : Int) :
    (bm_vote_fcc rc s reason fcc).2.bm_vote_fcc_value =
      pushed_value rc (events_since s (bm_vote_fcc rc s reason fcc).2) s.bm_vote_fcc_value := by
  unfold bm_vote_fcc bm_vote_fcc_update
  dsimp only
  split_ifs <;> simp [events_since, pushed_value, *] <;> omega

theorem run_votes_value_pushed (calls : List VoteCall) :
    ∀ (s : State) (prev : Int), s.bm_vote_fcc_value = prev →
      (run_votes s calls).bm_vote_fcc_value = last_pushed s calls prev := by
  induction calls with
  | nil => intro s prev h; exact h
  | cons c cs ih =>
    intro s prev h
    have hstep := bm_vote_fcc_value_pushed c.hw_rc s c.reason c.fcc
    rw [h] at hstep
    exact ih (bm_vote_fcc c.hw_rc s c.reason c.fcc).2 _ hstep

theorem pushed_value_failed (rc : Int) (events : List Event) (hrc : rc < 0) :
    ∀ prev : Int, pushed_value rc events prev = prev := by
  induction events with
  | nil => intro prev; rfl
  | cons e es ih =>
    intro prev
    have hstep : pushed_value rc (e :: es) prev = pushed_value rc es prev := by
      cases e with
      | set_property prop v => cases prop <;> simp [pushed_value, List.foldl, hrc]
      | vote_fcc r f => simp [pushed_value, List.foldl]
    rw [hstep]
    exact ih prev

theorem last_pushed_all_failed (calls : List VoteCall) :
    ∀ (s : State) (prev : Int), (∀ c ∈ calls, c.hw_rc < 0) →
      last_pushed s calls prev = prev := by
  induction calls with
  | nil => intro s prev _; rfl
  | cons c cs ih =>
    intro s prev hall
    have hc := hall c (List.mem_cons_self c cs)
    show last_pushed (bm_vote_fcc c.hw_rc s c.reason c.fcc).2 cs
      (pushed_value c.hw_rc (events_since s (bm_vote_fcc c.hw_rc s c.reason c.fcc).2) prev)
      = prev
    rw [pushed_value_failed c.hw_rc _ hc prev]
    exact ih _ prev (fun c1 hc1 => hall c1 (List.mem_cons_of_mem c hc1))

/-- C17: from the initial state, after every prefix of any sequence of
`bm_vote_fcc` calls and whatever return codes the hardware gives,
`bm_vote_fcc_value` is the value of the most recent
`CONSTANT_CHARGE_CURRENT_MAX` write that the hardware accepted, and `-EINVAL`
as long as none was accepted (in particular when every write failed). -/
theorem value_is_last_pushed (batt_temp chg_present : Int) (calls : List VoteCall) (n : Nat) :
    (run_votes (bm_init_state batt_temp chg_present) (calls.take n)).bm_vote_fcc_value =
      last_pushed (bm_init_state batt_temp chg_present) (calls.take n) (-EINVAL) ∧
    ((∀ c ∈ calls.take n, c.hw_rc < 0) →
      (run_votes (bm_init_state batt_temp chg_present) (calls.take n)).bm_vote_fcc_value
        = -EINVAL) := by
  have h := run_votes_value_pushed (calls.take n) (bm_init_state batt_temp chg_present)
    (-EINVAL) rfl
  refine ⟨h, fun hall => ?_⟩
  rw [h]
  exact last_pushed_all_failed (calls.take n) _ _ hall

theorem value_is_last_pushed_witness :
    (run_votes (bm_init_state 250 1)
      ([VoteCall.mk 1 1000000 0, VoteCall.mk 3 710000 (-5), VoteCall.mk 2 2400000 0].take
        3)).bm_vote_fcc_value = 1000000 ∧
    last_pushed (bm_init_state 250 1)
      ([VoteCall.mk 1 1000000 0, VoteCall.mk 3 710000 (-5), VoteCall.mk 2 2400000 0].take 3)
      (-EINVAL) = 1000000 ∧
    (run_votes (bm_init_state 250 1)
      ([VoteCall.mk 1 1000000 (-5), VoteCall.mk 3 710000 (-5)].take 2)).bm_vote_fcc_value
        = -EINVAL :=
  ⟨by decide,
    by
      rw [← (value_is_last_pushed 250 1
        [VoteCall.mk 1 1000000 0, VoteCall.mk 3 710000 (-5), VoteCall.mk 2 2400000 0] 3).1]
      decide,
    (value_is_last_pushed 250 1 [VoteCall.mk 1 1000000 (-5), VoteCall.mk 3 710000 (-5)] 2).2
      (by decide)⟩

/-! ## C12: the bands of `therm_table` overlap -/

theorem in_band_iff (temp : Int) (i : Nat) :
    in_band temp i ↔
      (i = 0 ∧ INT_MIN ≤ temp ∧ temp < 20) ∨ (i = 1 ∧ 0 ≤ temp ∧ temp < 220) ∨
      (i = 2 ∧ 200 ≤ temp ∧ temp < 450) ∨ (i = 3 ∧ 430 ≤ temp ∧ temp < 550) ∨
      (i = 4 ∧ 530 ≤ temp ∧ temp < INT_MAX) := by
  match i with
  | 0 => simp [in_band, therm_table]
  | 1 => simp [in_band, therm_table]
  | 2 => simp [in_band, therm_table]
  | 3 => simp [in_band, therm_table]
  | 4 => simp [in_band, therm_table]
  | n + 5 => simp [in_band, therm_table]

/-- C12, counterexample: `therm_table[Cold].max` is 20 while
`therm_table[Cool].min` is 0, and the temperature 10 lies in the interval of
both bands. -/
theorem therm_table_not_contiguous :
    Option.map bm_therm_table.max (therm_table.get? 0) = some 20 ∧
    Option.map bm_therm_table.min (therm_table.get? 1) = some 0 ∧
    Option.map bm_therm_table.max (therm_table.get? 0)
      ≠ Option.map bm_therm_table.min (therm_table.get? 1) ∧
    in_band 10 0 ∧ in_band 10 1 := by
  decide

/-- C12, amended: the bands of `therm_table` are ordered and every adjacent
pair overlaps by 20: `therm_table[i].max == therm_table[i+1].min + 20` for the
bands `i`, `i+1` in Cold..Hot; every temperature in `[INT_MIN, INT_MAX)`
belongs to at least one band interval `[min, max)` and to at most two, which
are then adjacent. -/
theorem therm_table_overlapping :
    (∀ i : Nat, i + 1 < BM_HEALTH_MAX →
      ∃ lo hi, therm_table.get? i = some lo ∧ therm_table.get? (i + 1) = some hi ∧
        lo.max = hi.min + 20 ∧ lo.min < hi.min ∧ lo.max < hi.max) ∧
    (∀ temp : Int, INT_MIN ≤ temp → temp < INT_MAX →
      ∃ i, i < BM_HEALTH_MAX ∧ in_band temp i) ∧
    (∀ (temp : Int) (i j : Nat), in_band temp i → in_band temp j →
      i ≤ j + 1 ∧ j ≤ i + 1) := by
  refine ⟨?_, ?_, ?_⟩
  · intro i hi
    have h : i = 0 ∨ i = 1 ∨ i = 2 ∨ i = 3 := by
      simp only [BM_HEALTH_MAX] at hi; omega
    rcases h with rfl | rfl | rfl | rfl
    · exact ⟨_, _, rfl, rfl, by decide, by decide, by decide⟩
    · exact ⟨_, _, rfl, rfl, by decide, by decide, by decide⟩
    · exact ⟨_, _, rfl, rfl, by decide, by decide, by decide⟩
    · exact ⟨_, _, rfl, rfl, by decide, by decide, by decide⟩
  · intro temp h0 h1
    by_cases a : temp < 20
    · exact ⟨0, by decide, (in_band_iff temp 0).mpr (Or.inl ⟨rfl, h0, a⟩)⟩
    by_cases b : temp < 220
    · exact ⟨1, by decide, (in_band_iff temp 1).mpr (Or.inr (Or.inl ⟨rfl, by omega, b⟩))⟩
    by_cases c : temp < 450
    · exact ⟨2, by decide,
        (in_band_iff temp 2).mpr (Or.inr (Or.inr (Or.inl ⟨rfl, by omega, c⟩)))⟩
    by_cases d : temp < 550
    · exact ⟨3, by decide,
        (in_band_iff temp 3).mpr (Or.inr (Or.inr (Or.inr (Or.inl ⟨rfl, by omega, d⟩))))⟩
    · exact ⟨4, by decide,
        (in_band_iff temp 4).mpr (Or.inr (Or.inr (Or.inr (Or.inr ⟨rfl, by omega, h1⟩))))⟩
  · intro temp i j hi hj
    rw [in_band_iff] at hi hj
    simp only [INT_MIN, INT_MAX] at hi hj
    omega

theorem therm_table_overlapping_witness :
    (∃ i, i < BM_HEALTH_MAX ∧ in_band 210 i) ∧ (2 ≤ 1 + 1 ∧ 1 ≤ 2 + 1) :=
  ⟨therm_table_overlapping.2.1 210 (by decide) (by decide),
    therm_table_overlapping.2.2 210 2 1 (by decide) (by decide)⟩

/-! ## The three outcomes of a band transition -/

theorem log_append_nil (s : State) : ({ s with log := s.log ++ [] } : State) = s := by
  cases s
  simp

/-- On a transition `bm_check_therm_charging` either stops at a failed voltage
write, or stops at a failed vote, or commits the new band. -/
theorem therm_transition_unfold (s : State) (stat : Int) (band : bm_therm_table)
    (rc_volt rc_cur : Int)
    (hwalk : therm_walk s.batt_temp BM_HEALTH_MAX s.therm_stat = some stat)
    (hband : therm_table_at stat = some band) (hne : s.therm_stat ≠ stat) :
    bm_check_therm_charging rc_volt rc_cur s =
      if voltage_events s.therm_stat stat ≠ [] ∧ rc_volt < 0 then
        some { s with log := s.log ++ voltage_events s.therm_stat stat }
      else if (bm_vote_fcc rc_cur { s with log := s.log ++ voltage_events s.therm_stat stat }
          BM_REASON_THERM band.cur).1 < 0 then
        some (bm_vote_fcc rc_cur { s with log := s.log ++ voltage_events s.therm_stat stat }
          BM_REASON_THERM band.cur).2
      else
        some { (bm_vote_fcc rc_cur { s with log := s.log ++ voltage_events s.therm_stat stat }
          BM_REASON_THERM band.cur).2 with therm_stat := stat } := by
  unfold bm_check_therm_charging
  rw [hwalk]
  simp only [hne, hband, ne_eq, not_false_eq_true, if_true]
  by_cases c1 : s.therm_stat ≤ BM_HEALTH_GOOD ∧ stat ≥ BM_HEALTH_WARM
  · have hve : voltage_events s.therm_stat stat
        = [Event.set_property power_supply_property.VOLTAGE_MAX LIM_VOLT] := by
      simp only [voltage_events, c1, and_self, if_true]
    rw [hve]
    simp only [c1, and_self, if_true]
    by_cases hf : rc_volt < 0
    · simp [hf]
    · simp [hf]
  · by_cases c2 : s.therm_stat ≥ BM_HEALTH_WARM ∧ stat ≤ BM_HEALTH_GOOD
    · have hve : voltage_events s.therm_stat stat
          = [Event.set_property power_supply_property.VOLTAGE_MAX NORM_VOLT] := by
        simp only [voltage_events, c1, c2, and_self, if_true, if_false]
      rw [hve]
      simp only [c1, c2, and_self, if_true, if_false]
      by_cases hf : rc_volt < 0
      · simp [hf]
      · simp [hf]
    · have hve : voltage_events s.therm_stat stat = [] := by
        simp only [voltage_events, c1, c2, if_false]
      rw [hve, log_append_nil]
      simp only [c1, c2, if_false]
      simp

/-- What `bm_vote_fcc` leaves alone: the length of the table, every slot other
than the voted one, and the fields of the state machines. -/
theorem bm_vote_fcc_frame (rc : Int) (s : State) (reason : Nat) (fcc : Int) :
    (bm_vote_fcc rc s reason fcc).2.bm_vote_fcc_table.length = s.bm_vote_fcc_table.length ∧
    (∀ i, i ≠ reason → (bm_vote_fcc rc s reason fcc).2.bm_vote_fcc_table.getD i 0
      = s.bm_vote_fcc_table.getD i 0) ∧
    (bm_vote_fcc rc s reason fcc).2.therm_stat = s.therm_stat ∧
    (bm_vote_fcc rc s reason fcc).2.sc_status = s.sc_status ∧
    (bm_vote_fcc rc s reason fcc).2.chg_present = s.chg_present ∧
    (bm_vote_fcc rc s reason fcc).2.batt_temp = s.batt_temp := by
  rcases bm_vote_fcc_cases rc s reason fcc with ⟨_, _, _, h4⟩ | ⟨_, h2, _, _, h5, h6, h7, h8⟩
  · rw [h4]
    refine ⟨by simp, fun i hi => ?_, rfl, rfl, rfl, rfl⟩
    simp [List.getD_eq_getElem?_getD, List.getElem?_set, Ne.symm hi]
  · refine ⟨by rw [h2]; simp, fun i hi => ?_, h5, h8, h6, h7⟩
    rw [h2]
    simp [List.getD_eq_getElem?_getD, List.getElem?_set, Ne.symm hi]

/-- The slot voted for holds the vote after a call that did not fail and
`-EINVAL` after a call that failed; a failed call leaves the recorded pair. -/
theorem bm_vote_fcc_slot (rc : Int) (s : State) (reason : Nat) (fcc : Int)
    (hr : reason < s.bm_vote_fcc_table.length) :
    ((bm_vote_fcc rc s reason fcc).1 < 0 →
      (bm_vote_fcc rc s reason fcc).2.bm_vote_fcc_table.getD reason 0 = -EINVAL ∧
      (bm_vote_fcc rc s reason fcc).2.bm_vote_fcc_reason = s.bm_vote_fcc_reason ∧
      (bm_vote_fcc rc s reason fcc).2.bm_vote_fcc_value = s.bm_vote_fcc_value) ∧
    (0 ≤ (bm_vote_fcc rc s reason fcc).1 →
      (bm_vote_fcc rc s reason fcc).2.bm_vote_fcc_table.getD reason 0 = fcc) := by
  rcases bm_vote_fcc_cases rc s reason fcc with ⟨h1, h2, _, h4⟩ | ⟨h1, h2, _⟩
  · refine ⟨fun _ => ?_, fun h => ?_⟩
    · rw [h4]
      refine ⟨?_, rfl, rfl⟩
      simp [List.getD_eq_getElem?_getD, List.getElem?_set, hr]
    · omega
  · refine ⟨fun h => ?_, fun _ => ?_⟩
    · omega
    · rw [h2]
      simp [List.getD_eq_getElem?_getD, List.getElem?_set, hr]

/-- A call of `bm_vote_fcc` fails exactly when it issued the current write and
the hardware returned a negative code. -/
theorem bm_vote_fcc_failed_iff (rc : Int) (s : State) (reason : Nat) (fcc : Int) :
    (bm_vote_fcc rc s reason fcc).1 < 0 ↔
      ((events_since s (bm_vote_fcc rc s reason fcc).2).any is_current_write = true ∧
        rc < 0) := by
  unfold bm_vote_fcc bm_vote_fcc_update
  dsimp only
  split_ifs <;> simp_all [events_since, is_current_write]

/-- Every returning call of `bm_check_therm_charging` is either no transition
or one of the three outcomes of a transition. -/
theorem bm_check_therm_charging_some (rc_volt rc_cur : Int) (s t : State)
    (h : bm_check_therm_charging rc_volt rc_cur s = some t) :
    t = s ∨
    ∃ stat band, therm_walk s.batt_temp BM_HEALTH_MAX s.therm_stat = some stat ∧
      therm_table_at stat = some band ∧ s.therm_stat ≠ stat ∧
      ((voltage_events s.therm_stat stat ≠ [] ∧ rc_volt < 0 ∧
          t = { s with log := s.log ++ voltage_events s.therm_stat stat }) ∨
        ((bm_vote_fcc rc_cur { s with log := s.log ++ voltage_events s.therm_stat stat }
            BM_REASON_THERM band.cur).1 < 0 ∧
          t = (bm_vote_fcc rc_cur { s with log := s.log ++ voltage_events s.therm_stat stat }
            BM_REASON_THERM band.cur).2) ∨
        (0 ≤ (bm_vote_fcc rc_cur { s with log := s.log ++ voltage_events s.therm_stat stat }
            BM_REASON_THERM band.cur).1 ∧
          t = { (bm_vote_fcc rc_cur
            { s with log := s.log ++ voltage_events s.therm_stat stat }
            BM_REASON_THERM band.cur).2 with therm_stat := stat })) := by
  cases hw : therm_walk s.batt_temp BM_HEALTH_MAX s.therm_stat with
  | none =>
    unfold bm_check_therm_charging at h
    rw [hw] at h
    exact absurd h (by simp)
  | some stat =>
    by_cases hne : s.therm_stat = stat
    · left
      unfold bm_check_therm_charging at h
      rw [hw] at h
      simp only [hne, ne_eq, not_true_eq_false, if_false] at h
      exact (Option.some.inj h).symm
    · cases hb : therm_table_at stat with
      | none =>
        unfold bm_check_therm_charging at h
        rw [hw] at h
        simp only [hne, hb, ne_eq, not_false_eq_true, if_true] at h
        exact absurd h (by simp)
      | some band =>
        right
        refine ⟨stat, band, rfl, hb, hne, ?_⟩
        rw [therm_transition_unfold s stat band rc_volt rc_cur hw hb hne] at h
        by_cases hv : voltage_events s.therm_stat stat ≠ [] ∧ rc_volt < 0
        · rw [if_pos hv] at h
          exact Or.inl ⟨hv.1, hv.2, (Option.some.inj h).symm⟩
        · rw [if_neg hv] at h
          by_cases hc : (bm_vote_fcc rc_cur
              { s with log := s.log ++ voltage_events s.therm_stat stat }
              BM_REASON_THERM band.cur).1 < 0
          · rw [if_pos hc] at h
            exact Or.inr (Or.inl ⟨hc, (Option.some.inj h).symm⟩)
          · rw [if_neg hc] at h
            exact Or.inr (Or.inr ⟨by omega, (Option.some.inj h).symm⟩)

/-- On a transition the call returns. -/
theorem therm_transition_returns (s : State) (stat : Int) (band : bm_therm_table)
    (rc_volt rc_cur : Int)
    (hwalk : therm_walk s.batt_temp BM_HEALTH_MAX s.therm_stat = some stat)
    (hband : therm_table_at stat = some band) (hne : s.therm_stat ≠ stat) :
    ∃ t, bm_check_therm_charging rc_volt rc_cur s = some t := by
  rw [therm_transition_unfold s stat band rc_volt rc_cur hwalk hband hne]
  split_ifs
  · exact ⟨_, rfl⟩
  · exact ⟨_, rfl⟩
  · exact ⟨_, rfl⟩

theorem voltage_events_no_vote (old new : Int) :
    (voltage_events old new).filter is_vote = [] ∧
    (voltage_events old new).any is_current_write = false := by
  unfold voltage_events
  split_ifs <;> simp [is_vote, is_current_write]

theorem bm_vote_fcc_log_grows (rc : Int) (s : State) (reason : Nat) (fcc : Int) :
    ∃ tail, (bm_vote_fcc rc s reason fcc).2.log = s.log ++ tail ∧
      events_since s (bm_vote_fcc rc s reason fcc).2 = tail ∧
      tail.filter is_vote = [Event.vote_fcc reason fcc] := by
  rcases bm_vote_fcc_log rc s reason fcc with hl | hl
  · exact ⟨_, hl, events_since_append s _ _ hl, by simp [is_vote]⟩
  · exact ⟨_, hl, events_since_append s _ _ hl, by simp [is_vote]⟩

/-- The events of a call that went through the voltage stage and then through
`bm_vote_fcc`: the voltage events followed by the events of the vote. -/
theorem events_after_voltage (s u : State) (ve tail : List Event)
    (hu : u.log = (s.log ++ ve) ++ tail) :
    events_since s u = ve ++ tail := by
  apply events_since_append
  rw [hu, List.append_assoc]

/-! ## C11: what a failed thermal transition leaves behind -/

/-- C11, counterexample: from the initial state a reading of 460 moves the band
to Warm and puts 710000 in the Thermal slot; a following reading of 560 whose
current write fails leaves `therm_stat` at Warm but the Thermal slot at
`-EINVAL`, not at the 710000 it held before the call. -/
theorem therm_vote_failure_clears_slot :
    Option.map State.bm_vote_fcc_table
      (run_therm (bm_init_state 250 1) [ThermReading.mk 460 0 0])
      = some [3550000, -EINVAL, -EINVAL, 710000] ∧
    Option.map State.therm_stat
      (run_therm (bm_init_state 250 1) [ThermReading.mk 460 0 0]) = some BM_HEALTH_WARM ∧
    Option.map State.bm_vote_fcc_table
      (run_therm (bm_init_state 250 1) [ThermReading.mk 460 0 0, ThermReading.mk 560 0 (-5)])
      = some [3550000, -EINVAL, -EINVAL, -EINVAL] ∧
    Option.map State.therm_stat
      (run_therm (bm_init_state 250 1) [ThermReading.mk 460 0 0, ThermReading.mk 560 0 (-5)])
      = some BM_HEALTH_WARM := by
  decide

/-- C11, amended: on a transition (the resolved band differs from the stored
band, four-slot table) `bm_check_therm_charging` returns, and
* if the voltage write is issued and fails, `therm_stat`, the whole vote table
  and the recorded pair are as before the call;
* if the current write of the Thermal vote is issued and fails, `therm_stat`,
  the recorded pair and every slot other than Thermal are as before the call,
  and the Thermal slot is `-EINVAL`;
* `therm_stat` changes only when neither write failed. -/
theorem therm_transition_failure (s : State) (stat : Int) (band : bm_therm_table)
    (rc_volt rc_cur : Int)
    (hlen : s.bm_vote_fcc_table.length = BM_REASON_MAX)
    (hwalk : therm_walk s.batt_temp BM_HEALTH_MAX s.therm_stat = some stat)
    (hband : therm_table_at stat = some band) (hne : s.therm_stat ≠ stat) :
    ∃ t, bm_check_therm_charging rc_volt rc_cur s = some t ∧
      (voltage_events s.therm_stat stat ≠ [] → rc_volt < 0 →
        t.therm_stat = s.therm_stat ∧ t.bm_vote_fcc_table = s.bm_vote_fcc_table ∧
        t.bm_vote_fcc_reason = s.bm_vote_fcc_reason ∧
        t.bm_vote_fcc_value = s.bm_vote_fcc_value) ∧
      ((events_since s t).any is_current_write = true → rc_cur < 0 →
        t.therm_stat = s.therm_stat ∧
        t.bm_vote_fcc_reason = s.bm_vote_fcc_reason ∧
        t.bm_vote_fcc_value = s.bm_vote_fcc_value ∧
        t.bm_vote_fcc_table.getD BM_REASON_THERM 0 = -EINVAL ∧
        (∀ i, i ≠ BM_REASON_THERM →
          t.bm_vote_fcc_table.getD i 0 = s.bm_vote_fcc_table.getD i 0) ∧
        t.bm_vote_fcc_table.length = BM_REASON_MAX) ∧
      (t.therm_stat ≠ s.therm_stat →
        ¬ (voltage_events s.therm_stat stat ≠ [] ∧ rc_volt < 0) ∧
        ¬ ((events_since s t).any is_current_write = true ∧ rc_cur < 0)) := by
  have hun := therm_transition_unfold s stat band rc_volt rc_cur hwalk hband hne
  have hnc := (voltage_events_no_vote s.therm_stat stat).2
  by_cases hv : voltage_events s.therm_stat stat ≠ [] ∧ rc_volt < 0
  · rw [if_pos hv] at hun
    refine ⟨_, hun, fun _ _ => ⟨rfl, rfl, rfl, rfl⟩, fun hw _ => ?_, fun hch => ?_⟩
    · have he : events_since s { s with log := s.log ++ voltage_events s.therm_stat stat }
          = voltage_events s.therm_stat stat := events_since_append s _ _ rfl
      rw [he, hnc] at hw
      exact absurd hw (by decide)
    · exact absurd rfl hch
  · rw [if_neg hv] at hun
    obtain ⟨tail, hlog, hev, _⟩ := bm_vote_fcc_log_grows rc_cur
      { s with log := s.log ++ voltage_events s.therm_stat stat } BM_REASON_THERM band.cur
    obtain ⟨hf1, hf2, hf3, _, _, _⟩ := bm_vote_fcc_frame rc_cur
      { s with log := s.log ++ voltage_events s.therm_stat stat } BM_REASON_THERM band.cur
    have h3 : BM_REASON_THERM < s.bm_vote_fcc_table.length := by rw [hlen]; decide
    obtain ⟨hs1, _⟩ := bm_vote_fcc_slot rc_cur
      { s with log := s.log ++ voltage_events s.therm_stat stat } BM_REASON_THERM band.cur h3
    have hiff := bm_vote_fcc_failed_iff rc_cur
      { s with log := s.log ++ voltage_events s.therm_stat stat } BM_REASON_THERM band.cur
    rw [hev] at hiff
    by_cases hc : (bm_vote_fcc rc_cur
        { s with log := s.log ++ voltage_events s.therm_stat stat }
        BM_REASON_THERM band.cur).1 < 0
    · rw [if_pos hc] at hun
      obtain ⟨hslot, hrs, hvl⟩ := hs1 hc
      refine ⟨_, hun, fun h1 h2 => absurd ⟨h1, h2⟩ hv, fun _ _ => ?_, fun hch => ?_⟩
      · exact ⟨hf3, hrs, hvl, hslot, hf2, by rw [hf1]; exact hlen⟩
      · exact absurd hf3 hch
    · rw [if_neg hc] at hun
      have hevt : events_since s
          { (bm_vote_fcc rc_cur { s with log := s.log ++ voltage_events s.therm_stat stat }
            BM_REASON_THERM band.cur).2 with therm_stat := stat }
          = voltage_events s.therm_stat stat ++ tail :=
        events_after_voltage s _ _ tail hlog
      have hany : (events_since s
          { (bm_vote_fcc rc_cur { s with log := s.log ++ voltage_events s.therm_stat stat }
            BM_REASON_THERM band.cur).2 with therm_stat := stat }).any is_current_write
          = tail.any is_current_write := by
        rw [hevt, List.any_append, hnc, Bool.false_or]
      refine ⟨_, hun, fun h1 h2 => absurd ⟨h1, h2⟩ hv, fun hw hr => ?_, fun _ => ⟨hv, ?_⟩⟩
      · rw [hany] at hw
        exact absurd (hiff.mpr ⟨hw, hr⟩) hc
      · rw [hany]
        exact fun hboth => hc (hiff.mpr hboth)

theorem therm_transition_failure_witness :
    ∃ t, bm_check_therm_charging 0 (-5) (bm_init_state 460 1) = some t ∧
      t.therm_stat = (bm_init_state 460 1).therm_stat ∧
      t.bm_vote_fcc_table.getD BM_REASON_THERM 0 = -EINVAL := by
  obtain ⟨t, h1, _, h3, _⟩ := therm_transition_failure (bm_init_state 460 1)
    BM_HEALTH_WARM { min := 430, max := 550, cur := 710000 } 0 (-5)
    rfl (by decide) rfl (by decide)
  have hw : (events_since (bm_init_state 460 1) t).any is_current_write = true := by
    have h2 : bm_check_therm_charging 0 (-5) (bm_init_state 460 1) = some
        { bm_init_state 460 1 with
          log := [Event.set_property power_supply_property.VOLTAGE_MAX LIM_VOLT,
            Event.vote_fcc BM_REASON_THERM 710000,
            Event.set_property power_supply_property.CONSTANT_CHARGE_CURRENT_MAX 710000] } := by
      decide
    rw [h2] at h1
    rw [← Option.some.inj h1]
    decide
  obtain ⟨h4, _, _, h5, _⟩ := h3 hw (by decide)
  exact ⟨t, h1, h4, h5⟩

/-! ## C13: the current caps of the bands -/

/-- C13, counterexample: the Cold band carries the cap 0, not 710000; the Cool
band carries 710000 and the Hot band 0, not `-EINVAL`; and entering Cold from
Good submits the Thermal vote 0, which the arbiter writes to the hardware. -/
theorem therm_caps_as_coded :
    Option.map bm_therm_table.cur (therm_table_at BM_HEALTH_COLD) = some 0 ∧
    Option.map bm_therm_table.cur (therm_table_at BM_HEALTH_COLD) ≠ some 710000 ∧
    Option.map bm_therm_table.cur (therm_table_at BM_HEALTH_COOL) = some 710000 ∧
    Option.map bm_therm_table.cur (therm_table_at BM_HEALTH_COOL) ≠ some (-EINVAL) ∧
    Option.map bm_therm_table.cur (therm_table_at BM_HEALTH_HOT) = some 0 ∧
    Option.map bm_therm_table.cur (therm_table_at BM_HEALTH_HOT) ≠ some (-EINVAL) ∧
    Option.map State.log (bm_check_therm_charging 0 0 (bm_init_state (-10) 1))
      = some [Event.vote_fcc BM_REASON_THERM 0,
          Event.set_property power_supply_property.CONSTANT_CHARGE_CURRENT_MAX 0] ∧
    Option.map State.therm_stat (bm_check_therm_charging 0 0 (bm_init_state (-10) 1))
      = some BM_HEALTH_COLD := by
  decide

theorem therm_table_at_some (stat : Int) (band : bm_therm_table)
    (h : therm_table_at stat = some band) :
    (stat = 0 ∧ band = { min := INT_MIN, max := 20, cur := 0 }) ∨
    (stat = 1 ∧ band = { min := 0, max := 220, cur := 710000 }) ∨
    (stat = 2 ∧ band = { min := 200, max := 450, cur := -EINVAL }) ∨
    (stat = 3 ∧ band = { min := 430, max := 550, cur := 710000 }) ∨
    (stat = 4 ∧ band = { min := 530, max := INT_MAX, cur := 0 }) := by
  unfold therm_table_at at h
  by_cases h0 : 0 ≤ stat
  · rw [if_pos h0] at h
    obtain ⟨m, rfl⟩ : ∃ m : Nat, stat = (m : Int) := ⟨stat.toNat, by omega⟩
    rw [Int.toNat_ofNat] at h
    match m, h with
    | 0, h => left; exact ⟨rfl, (Option.some.inj h).symm⟩
    | 1, h => right; left; exact ⟨rfl, (Option.some.inj h).symm⟩
    | 2, h => right; right; left; exact ⟨rfl, (Option.some.inj h).symm⟩
    | 3, h => right; right; right; left; exact ⟨rfl, (Option.some.inj h).symm⟩
    | 4, h => right; right; right; right; exact ⟨rfl, (Option.some.inj h).symm⟩
    | n + 5, h => simp [therm_table] at h
  · rw [if_neg h0] at h
    exact absurd h (by simp)

/-- C13, amended: in `therm_table` the Cool and the Warm band carry the cap
710000, the Cold and the Hot band carry the cap 0 and only the Good band
carries no cap (`-EINVAL`); on a transition whose voltage write does not fail
the call submits exactly one Thermal vote, the cap of the band entered:
710000 on entering Cool or Warm, 0 on entering Cold or Hot, and a withdrawal
(`-EINVAL`) on entering Good. -/
theorem therm_vote_caps (s : State) (stat : Int) (band : bm_therm_table)
    (rc_volt rc_cur : Int)
    (hwalk : therm_walk s.batt_temp BM_HEALTH_MAX s.therm_stat = some stat)
    (hband : therm_table_at stat = some band) (hne : s.therm_stat ≠ stat)
    (hvolt : ¬ (voltage_events s.therm_stat stat ≠ [] ∧ rc_volt < 0)) :
    (Option.map bm_therm_table.cur (therm_table_at BM_HEALTH_COLD) = some 0 ∧
      Option.map bm_therm_table.cur (therm_table_at BM_HEALTH_COOL) = some 710000 ∧
      Option.map bm_therm_table.cur (therm_table_at BM_HEALTH_GOOD) = some (-EINVAL) ∧
      Option.map bm_therm_table.cur (therm_table_at BM_HEALTH_WARM) = some 710000 ∧
      Option.map bm_therm_table.cur (therm_table_at BM_HEALTH_HOT) = some 0) ∧
    ∃ t, bm_check_therm_charging rc_volt rc_cur s = some t ∧
      (events_since s t).filter is_vote = [Event.vote_fcc BM_REASON_THERM band.cur] ∧
      ((stat = BM_HEALTH_COOL ∨ stat = BM_HEALTH_WARM) → band.cur = 710000) ∧
      ((stat = BM_HEALTH_COLD ∨ stat = BM_HEALTH_HOT) → band.cur = 0) ∧
      (stat = BM_HEALTH_GOOD → band.cur = -EINVAL) := by
  refine ⟨by decide, ?_⟩
  have hun := therm_transition_unfold s stat band rc_volt rc_cur hwalk hband hne
  rw [if_neg hvolt] at hun
  obtain ⟨tail, hlog, _, hvote⟩ := bm_vote_fcc_log_grows rc_cur
    { s with log := s.log ++ voltage_events s.therm_stat stat } BM_REASON_THERM band.cur
  have hnv := (voltage_events_no_vote s.therm_stat stat).1
  have hcaps : ((stat = BM_HEALTH_COOL ∨ stat = BM_HEALTH_WARM) → band.cur = 710000) ∧
      ((stat = BM_HEALTH_COLD ∨ stat = BM_HEALTH_HOT) → band.cur = 0) ∧
      (stat = BM_HEALTH_GOOD → band.cur = -EINVAL) := by
    simp only [BM_HEALTH_COLD, BM_HEALTH_COOL, BM_HEALTH_GOOD, BM_HEALTH_WARM, BM_HEALTH_HOT]
    rcases therm_table_at_some stat band hband with
      ⟨h1, h2⟩ | ⟨h1, h2⟩ | ⟨h1, h2⟩ | ⟨h1, h2⟩ | ⟨h1, h2⟩ <;>
      rw [h2] <;> refine ⟨fun h => ?_, fun h => ?_, fun h => ?_⟩ <;>
      first | rfl | omega
  by_cases hc : (bm_vote_fcc rc_cur
      { s with log := s.log ++ voltage_events s.therm_stat stat }
      BM_REASON_THERM band.cur).1 < 0
  · rw [if_pos hc] at hun
    refine ⟨_, hun, ?_, hcaps⟩
    rw [events_after_voltage s _ _ tail hlog, List.filter_append, hnv, hvote, List.nil_append]
  · rw [if_neg hc] at hun
    refine ⟨_, hun, ?_, hcaps⟩
    have hevt : events_since s
        { (bm_vote_fcc rc_cur { s with log := s.log ++ voltage_events s.therm_stat stat }
          BM_REASON_THERM band.cur).2 with therm_stat := stat }
        = voltage_events s.therm_stat stat ++ tail :=
      events_after_voltage s _ _ tail hlog
    rw [hevt, List.filter_append, hnv, hvote, List.nil_append]

theorem therm_vote_caps_witness :
    ∃ t, bm_check_therm_charging 0 0 (bm_init_state 540 1) = some t ∧
      (events_since (bm_init_state 540 1) t).filter is_vote
        = [Event.vote_fcc BM_REASON_THERM 710000] := by
  obtain ⟨t, h1, h2, _⟩ := (therm_vote_caps (bm_init_state 540 1)
    BM_HEALTH_WARM { min := 430, max := 550, cur := 710000 } 0 0
    (by decide) rfl (by decide) (by decide)).2
  exact ⟨t, h1, h2⟩

/-! ## C15: the Default vote is never withdrawn -/

theorem bm_check_therm_charging_frame (rc_volt rc_cur : Int) (s t : State)
    (h : bm_check_therm_charging rc_volt rc_cur s = some t) :
    t.bm_vote_fcc_table.length = s.bm_vote_fcc_table.length ∧
    (∀ i, i ≠ BM_REASON_THERM →
      t.bm_vote_fcc_table.getD i 0 = s.bm_vote_fcc_table.getD i 0) ∧
    t.sc_status = s.sc_status := by
  rcases bm_check_therm_charging_some rc_volt rc_cur s t h with
    rfl | ⟨stat, band, _, _, _, ⟨_, _, rfl⟩ | ⟨_, rfl⟩ | ⟨_, rfl⟩⟩
  · exact ⟨rfl, fun _ _ => rfl, rfl⟩
  · exact ⟨rfl, fun _ _ => rfl, rfl⟩
  · obtain ⟨h1, h2, _, h4, _⟩ := bm_vote_fcc_frame rc_cur
      { s with log := s.log ++ voltage_events s.therm_stat stat } BM_REASON_THERM band.cur
    exact ⟨h1, h2, h4⟩
  · obtain ⟨h1, h2, _, h4, _⟩ := bm_vote_fcc_frame rc_cur
      { s with log := s.log ++ voltage_events s.therm_stat stat } BM_REASON_THERM band.cur
    exact ⟨h1, h2, h4⟩

theorem bm_check_step_charging_frame (rc : Int) (s : State) (volt : Int) :
    (bm_check_step_charging rc s volt).bm_vote_fcc_table.length
      = s.bm_vote_fcc_table.length ∧
    (∀ i, i ≠ BM_REASON_STEP →
      (bm_check_step_charging rc s volt).bm_vote_fcc_table.getD i 0
        = s.bm_vote_fcc_table.getD i 0) ∧
    (bm_check_step_charging rc s volt).therm_stat = s.therm_stat := by
  obtain ⟨a1, a2, a3, _⟩ := bm_vote_fcc_frame rc s BM_REASON_STEP (-EINVAL)
  obtain ⟨b1, b2, b3, _⟩ := bm_vote_fcc_frame rc s BM_REASON_STEP SC_CURRENT
  unfold bm_check_step_charging
  dsimp only
  split_ifs
  · exact ⟨a1, a2, a3⟩
  · exact ⟨a1, a2, a3⟩
  · exact ⟨rfl, fun _ _ => rfl, rfl⟩
  · exact ⟨b1, b2, b3⟩
  · exact ⟨b1, b2, b3⟩
  · exact ⟨rfl, fun _ _ => rfl, rfl⟩

theorem bm_fb_update_work_frame (mask fb_state : Nat) (rc : Int) (s : State) :
    (bm_fb_update_work mask fb_state rc s).bm_vote_fcc_table.length
      = s.bm_vote_fcc_table.length ∧
    (∀ i, i ≠ BM_REASON_LCD →
      (bm_fb_update_work mask fb_state rc s).bm_vote_fcc_table.getD i 0
        = s.bm_vote_fcc_table.getD i 0) ∧
    (bm_fb_update_work mask fb_state rc s).therm_stat = s.therm_stat ∧
    (bm_fb_update_work mask fb_state rc s).sc_status = s.sc_status := by
  obtain ⟨a1, a2, a3, a4, _⟩ := bm_vote_fcc_frame rc s BM_REASON_LCD LCD_ON_CURRENT
  obtain ⟨b1, b2, b3, b4, _⟩ := bm_vote_fcc_frame rc s BM_REASON_LCD (-EINVAL)
  unfold bm_fb_update_work
  split_ifs
  · exact ⟨a1, a2, a3, a4⟩
  · exact ⟨b1, b2, b3, b4⟩

theorem run_op_default (s t : State) (op : Op) (h : run_op s op = some t)
    (hs : default_inv s) : default_inv t := by
  obtain ⟨hlen, h0⟩ := hs
  cases op with
  | fb_update mask fb_state rc =>
    have ht : t = bm_fb_update_work mask fb_state rc s := (Option.some.inj h).symm
    obtain ⟨f1, f2, _⟩ := bm_fb_update_work_frame mask fb_state rc s
    rw [ht]
    exact ⟨by rw [f1]; exact hlen, by rw [f2 BM_REASON_DEFAULT (by decide)]; exact h0⟩
  | therm temp rc_volt rc_cur =>
    obtain ⟨f1, f2, _⟩ := bm_check_therm_charging_frame rc_volt rc_cur
      { s with batt_temp := temp } t h
    exact ⟨by rw [f1]; exact hlen, by rw [f2 BM_REASON_DEFAULT (by decide)]; exact h0⟩
  | step chg volt rc =>
    have ht : t = bm_check_step_charging rc { s with chg_present := chg } volt :=
      (Option.some.inj h).symm
    obtain ⟨f1, f2, _⟩ := bm_check_step_charging_frame rc { s with chg_present := chg } volt
    rw [ht]
    exact ⟨by rw [f1]; exact hlen, by rw [f2 BM_REASON_DEFAULT (by decide)]; exact h0⟩

theorem run_ops_default (ops : List Op) :
    ∀ s t : State, run_ops s ops = some t → default_inv s → default_inv t := by
  induction ops with
  | nil =>
    intro s t h hs
    have : t = s := (Option.some.inj h).symm
    rw [this]; exact hs
  | cons op rest ih =>
    intro s t h hs
    cases hop : run_op s op with
    | none =>
      simp only [run_ops, hop] at h
      exact absurd h (by simp)
    | some u =>
      simp only [run_ops, hop] at h
      exact ih u t h (run_op_default s u op hop hs)

/-- C15: in every state reached from the initial state by any sequence of
`bm_fb_update_work`, `bm_check_therm_charging` and `bm_check_step_charging`,
whatever return codes the hardware gives, the Default slot of
`bm_vote_fcc_table` holds `CHG_CURRENT_MAX = 3550000`; so the scan always has a
candidate: its winning reason is the index of a present slot, never `-EINVAL`,
and a resolve that does not fail never records the reason `-EINVAL`. -/
theorem default_slot_never_withdrawn (batt_temp chg_present : Int) (ops : List Op)
    (s : State) (h : run_ops (bm_init_state batt_temp chg_present) ops = some s) :
    s.bm_vote_fcc_table.getD BM_REASON_DEFAULT 0 = 3550000 ∧
    s.bm_vote_fcc_table.length = BM_REASON_MAX ∧
    present s.bm_vote_fcc_table BM_REASON_DEFAULT ∧
    is_lowest_reason s.bm_vote_fcc_table (fcc_scan s.bm_vote_fcc_table).1
      (fcc_scan s.bm_vote_fcc_table).2 ∧
    (fcc_scan s.bm_vote_fcc_table).2 ≠ -EINVAL ∧
    (∀ rc, 0 ≤ rc → (bm_vote_fcc_update rc s).2.bm_vote_fcc_reason ≠ -EINVAL) := by
  have hinit : default_inv (bm_init_state batt_temp chg_present) := ⟨rfl, rfl⟩
  obtain ⟨hlen, h0⟩ := run_ops_default ops _ s h hinit
  have hp : present s.bm_vote_fcc_table BM_REASON_DEFAULT :=
    ⟨by decide, by rw [h0]; decide⟩
  have hlt : s.bm_vote_fcc_table.getD BM_REASON_DEFAULT 0 < INT_MAX := by rw [h0]; decide
  obtain ⟨_, hlow⟩ := fcc_scan_min s.bm_vote_fcc_table BM_REASON_DEFAULT hp hlt
  have hne : (fcc_scan s.bm_vote_fcc_table).2 ≠ -EINVAL := by
    obtain ⟨i, hi, _⟩ := hlow
    rw [hi]
    simp only [EINVAL]
    omega
  refine ⟨h0, hlen, hp, hlow, hne, fun rc hrc => ?_⟩
  rcases bm_vote_fcc_update_cases rc s with ⟨_, h2, _⟩ | ⟨_, _, _, h4, _⟩
  · omega
  · rw [h4]; exact hne

theorem default_slot_never_withdrawn_witness :
    ∃ s, run_ops (bm_init_state 250 1)
        [Op.fb_update 2 0 0, Op.therm 460 0 (-5), Op.step 1 4210000 (-5),
          Op.fb_update 2 2 0] = some s ∧
      s.bm_vote_fcc_table.getD BM_REASON_DEFAULT 0 = 3550000 := by
  have hsome : (run_ops (bm_init_state 250 1)
      [Op.fb_update 2 0 0, Op.therm 460 0 (-5), Op.step 1 4210000 (-5),
        Op.fb_update 2 2 0]).isSome = true := by decide
  obtain ⟨s, hs⟩ := Option.isSome_iff_exists.mp hsome
  exact ⟨s, hs, (default_slot_never_withdrawn 250 1 _ s hs).1⟩

/-! ## C19: the Thermal slot and the stored band -/

/-- C19, counterexample: from the initial state a reading of 460 (all writes
succeeding) and then a reading of 560 whose current write fails lead to a state
with `therm_stat = Warm`, whose cap is 710000, and an absent Thermal slot. -/
theorem therm_slot_lost_after_failed_vote :
    Option.map State.therm_stat
      (run_ops (bm_init_state 250 1) [Op.therm 460 0 0, Op.therm 560 0 (-5)])
      = some BM_HEALTH_WARM ∧
    Option.map bm_therm_table.cur (therm_table_at BM_HEALTH_WARM) = some 710000 ∧
    Option.map (fun t : State => t.bm_vote_fcc_table.getD BM_REASON_THERM 0)
      (run_ops (bm_init_state 250 1) [Op.therm 460 0 0, Op.therm 560 0 (-5)])
      = some (-EINVAL) := by
  decide

theorem bm_check_therm_charging_same (rc_volt rc_cur : Int) (s : State)
    (hwalk : therm_walk s.batt_temp BM_HEALTH_MAX s.therm_stat = some s.therm_stat) :
    bm_check_therm_charging rc_volt rc_cur s = some s := by
  unfold bm_check_therm_charging
  rw [hwalk]
  simp

theorem therm_inv_of_frame (s t : State)
    (hlen : t.bm_vote_fcc_table.length = s.bm_vote_fcc_table.length)
    (hslot : t.bm_vote_fcc_table.getD BM_REASON_THERM 0
      = s.bm_vote_fcc_table.getD BM_REASON_THERM 0)
    (hstat : t.therm_stat = s.therm_stat) :
    (therm_inv s → therm_inv t) ∧ (therm_inv_exact s → therm_inv_exact t) := by
  unfold therm_inv therm_inv_exact
  rw [hlen, hslot, hstat]
  exact ⟨id, id⟩

theorem therm_op_inv (s : State) (temp rc_volt rc_cur : Int)
    (ht0 : INT_MIN ≤ temp) (ht1 : temp < INT_MAX) (hs : therm_inv s) :
    ∃ t, bm_check_therm_charging rc_volt rc_cur { s with batt_temp := temp } = some t ∧
      therm_inv t ∧ (0 ≤ rc_cur → therm_inv_exact s → therm_inv_exact t) := by
  obtain ⟨hlen, band, hb, _⟩ := id hs
  have hrange : 0 ≤ s.therm_stat ∧ s.therm_stat ≤ 4 := by
    rcases therm_table_at_some s.therm_stat band hb with
      ⟨h, _⟩ | ⟨h, _⟩ | ⟨h, _⟩ | ⟨h, _⟩ | ⟨h, _⟩ <;> omega
  obtain ⟨st, band1, hw, _, _, hb1, _, _⟩ :=
    therm_walk_resolves temp s.therm_stat hrange.1 hrange.2 ht0 ht1
  have hw1 : therm_walk ({ s with batt_temp := temp } : State).batt_temp BM_HEALTH_MAX
      ({ s with batt_temp := temp } : State).therm_stat = some st := hw
  by_cases hne : s.therm_stat = st
  · have hw2 : therm_walk ({ s with batt_temp := temp } : State).batt_temp BM_HEALTH_MAX
        ({ s with batt_temp := temp } : State).therm_stat
        = some ({ s with batt_temp := temp } : State).therm_stat := by
      rw [hw1]; exact congrArg some hne.symm
    refine ⟨_, bm_check_therm_charging_same rc_volt rc_cur _ hw2, ?_, fun _ => ?_⟩
    · exact (therm_inv_of_frame s { s with batt_temp := temp } rfl rfl rfl).1 hs
    · exact (therm_inv_of_frame s { s with batt_temp := temp } rfl rfl rfl).2
  · have hun := therm_transition_unfold { s with batt_temp := temp } st band1 rc_volt rc_cur
      hw1 hb1 hne
    by_cases hv : voltage_events ({ s with batt_temp := temp } : State).therm_stat st ≠ [] ∧
        rc_volt < 0
    · rw [if_pos hv] at hun
      refine ⟨_, hun, ?_, fun _ => ?_⟩
      · exact (therm_inv_of_frame s _ rfl rfl rfl).1 hs
      · exact (therm_inv_of_frame s _ rfl rfl rfl).2
    · rw [if_neg hv] at hun
      have h3 : BM_REASON_THERM < s.bm_vote_fcc_table.length := by rw [hlen]; decide
      obtain ⟨hf1, _, hf3, _⟩ := bm_vote_fcc_frame rc_cur
        { ({ s with batt_temp := temp } : State) with
          log := ({ s with batt_temp := temp } : State).log ++
            voltage_events ({ s with batt_temp := temp } : State).therm_stat st }
        BM_REASON_THERM band1.cur
      obtain ⟨hs1, hs2⟩ := bm_vote_fcc_slot rc_cur
        { ({ s with batt_temp := temp } : State) with
          log := ({ s with batt_temp := temp } : State).log ++
            voltage_events ({ s with batt_temp := temp } : State).therm_stat st }
        BM_REASON_THERM band1.cur h3
      by_cases hc : (bm_vote_fcc rc_cur
          { ({ s with batt_temp := temp } : State) with
            log := ({ s with batt_temp := temp } : State).log ++
              voltage_events ({ s with batt_temp := temp } : State).therm_stat st }
          BM_REASON_THERM band1.cur).1 < 0
      · rw [if_pos hc] at hun
        refine ⟨_, hun, ⟨by rw [hf1]; exact hlen, band, by rw [hf3]; exact hb,
          Or.inr (hs1 hc).1⟩, fun hrc _ => ?_⟩
        have := (bm_vote_fcc_ok rc_cur
          { ({ s with batt_temp := temp } : State) with
            log := ({ s with batt_temp := temp } : State).log ++
              voltage_events ({ s with batt_temp := temp } : State).therm_stat st }
          BM_REASON_THERM band1.cur hrc).1
        omega
      · rw [if_neg hc] at hun
        have hslot := hs2 (by omega)
        refine ⟨_, hun, ⟨by show _ = BM_REASON_MAX; rw [hf1]; exact hlen, band1, hb1,
          Or.inl hslot⟩, fun _ _ => ⟨by show _ = BM_REASON_MAX; rw [hf1]; exact hlen,
          band1, hb1, hslot⟩⟩

theorem run_op_therm_inv (s : State) (op : Op) (hop : temp_below_max op)
    (hs : therm_inv s) :
    ∃ t, run_op s op = some t ∧ therm_inv t ∧
      (therm_write_ok op → therm_inv_exact s → therm_inv_exact t) := by
  cases op with
  | fb_update mask fb_state rc =>
    obtain ⟨f1, f2, f3, _⟩ := bm_fb_update_work_frame mask fb_state rc s
    have hfr := therm_inv_of_frame s (bm_fb_update_work mask fb_state rc s) f1
      (f2 BM_REASON_THERM (by decide)) f3
    exact ⟨_, rfl, hfr.1 hs, fun _ => hfr.2⟩
  | therm temp rc_volt rc_cur =>
    exact therm_op_inv s temp rc_volt rc_cur hop.1 hop.2 hs
  | step chg volt rc =>
    obtain ⟨f1, f2, f3⟩ := bm_check_step_charging_frame rc { s with chg_present := chg } volt
    have hfr := therm_inv_of_frame s
      (bm_check_step_charging rc { s with chg_present := chg } volt) f1
      (f2 BM_REASON_THERM (by decide)) f3
    exact ⟨_, rfl, hfr.1 hs, fun _ => hfr.2⟩

theorem run_ops_therm_inv (ops : List Op) :
    ∀ s : State, therm_inv s → (∀ op ∈ ops, temp_below_max op) →
      ∃ t, run_ops s ops = some t ∧ therm_inv t ∧
        ((∀ op ∈ ops, therm_write_ok op) → therm_inv_exact s → therm_inv_exact t) := by
  induction ops with
  | nil => intro s hs _; exact ⟨s, rfl, hs, fun _ h => h⟩
  | cons op rest ih =>
    intro s hs hall
    obtain ⟨u, hu, hinv, hex⟩ :=
      run_op_therm_inv s op (hall op (List.mem_cons_self op rest)) hs
    obtain ⟨t, ht, hinv2, hex2⟩ := ih u hinv
      (fun o ho => hall o (List.mem_cons_of_mem op ho))
    refine ⟨t, by simp only [run_ops, hu]; exact ht, hinv2, fun hok hse => ?_⟩
    exact hex2 (fun o ho => hok o (List.mem_cons_of_mem op ho))
      (hex (hok op (List.mem_cons_self op rest)) hse)

/-- C19, amended: along any sequence of `bm_fb_update_work`,
`bm_check_therm_charging` and `bm_check_step_charging` from the initial state,
with 32-bit temperatures below `INT_MAX` and whatever return codes the hardware
gives, every call returns, the stored band stays a row of `therm_table`, and
the Thermal slot holds `therm_table[therm_stat].cur` or, after a Thermal vote
whose current write failed, `-EINVAL`; when no current write of a Thermal vote
fails it holds `therm_table[therm_stat].cur`. -/
theorem therm_slot_tracks_band (batt_temp chg_present : Int) (ops : List Op)
    (hops : ∀ op ∈ ops, temp_below_max op) :
    ∃ s band, run_ops (bm_init_state batt_temp chg_present) ops = some s ∧
      therm_table_at s.therm_stat = some band ∧
      (s.bm_vote_fcc_table.getD BM_REASON_THERM 0 = band.cur ∨
        s.bm_vote_fcc_table.getD BM_REASON_THERM 0 = -EINVAL) ∧
      ((∀ op ∈ ops, therm_write_ok op) →
        s.bm_vote_fcc_table.getD BM_REASON_THERM 0 = band.cur) := by
  have hinit : therm_inv_exact (bm_init_state batt_temp chg_present) :=
    ⟨rfl, _, therm_table_at_good, rfl⟩
  have hweak : therm_inv (bm_init_state batt_temp chg_present) :=
    ⟨rfl, _, therm_table_at_good, Or.inl rfl⟩
  obtain ⟨t, ht, ⟨_, band, hb, hslot⟩, hex⟩ := run_ops_therm_inv ops _ hweak hops
  refine ⟨t, band, ht, hb, hslot, fun hok => ?_⟩
  obtain ⟨_, band2, hb2, hslot2⟩ := hex hok hinit
  rw [hb] at hb2
  rw [Option.some.inj hb2]
  exact hslot2

theorem therm_slot_tracks_band_witness :
    ∃ s band, run_ops (bm_init_state 250 1)
        [Op.therm 460 0 0, Op.fb_update 2 0 (-5), Op.therm 560 0 0] = some s ∧
      therm_table_at s.therm_stat = some band ∧
      s.bm_vote_fcc_table.getD BM_REASON_THERM 0 = band.cur := by
  obtain ⟨s, band, h1, h2, _, h4⟩ := therm_slot_tracks_band 250 1
    [Op.therm 460 0 0, Op.fb_update 2 0 (-5), Op.therm 560 0 0] (by decide)
  exact ⟨s, band, h1, h2, h4 (by decide)⟩

/-! ## C20: the step latch and the Step slot -/

/-- C20, counterexample: from the initial state the latch engages at 4210000
with the charger present; when the charger is then removed and the current
write of the withdrawal fails, `sc_status` stays true while the Step slot is
`-EINVAL`. -/
theorem step_latch_set_slot_absent :
    (run_step (bm_init_state 250 1)
      [StepCall.mk 1 4210000 0, StepCall.mk 0 0 (-5)]).sc_status = true ∧
    (run_step (bm_init_state 250 1)
      [StepCall.mk 1 4210000 0, StepCall.mk 0 0 (-5)]).bm_vote_fcc_table.getD
        BM_REASON_STEP 0 = -EINVAL ∧
    (run_step (bm_init_state 250 1)
      [StepCall.mk 1 4210000 0, StepCall.mk 0 0 (-5)]).bm_vote_fcc_table.getD
        BM_REASON_STEP 0 ≠ SC_CURRENT := by
  decide

theorem step_call_inv (rc : Int) (s1 : State) (volt : Int) (hs : step_inv s1) :
    step_inv (bm_check_step_charging rc s1 volt) ∧
    (0 ≤ rc → (step_engaged s1 ∨ step_released s1) →
      (step_engaged (bm_check_step_charging rc s1 volt) ∨
        step_released (bm_check_step_charging rc s1 volt))) := by
  obtain ⟨hlen, hclear, hslot⟩ := id hs
  have h2 : BM_REASON_STEP < s1.bm_vote_fcc_table.length := by rw [hlen]; decide
  by_cases hc : s1.chg_present = 0
  · by_cases hsc : s1.sc_status = true
    · -- charger removed, latch set: withdrawal
      obtain ⟨f1, _, _, f4, _⟩ := bm_vote_fcc_frame rc s1 BM_REASON_STEP (-EINVAL)
      obtain ⟨g1, g2⟩ := bm_vote_fcc_slot rc s1 BM_REASON_STEP (-EINVAL) h2
      by_cases hv : (bm_vote_fcc rc s1 BM_REASON_STEP (-EINVAL)).1 < 0
      · have hres : bm_check_step_charging rc s1 volt
            = (bm_vote_fcc rc s1 BM_REASON_STEP (-EINVAL)).2 := by
          unfold bm_check_step_charging
          rw [if_pos hc, if_pos hsc]
          simp only [hv, if_true]
        rw [hres]
        refine ⟨⟨by rw [f1]; exact hlen, fun _ => (g1 hv).1, Or.inr (g1 hv).1⟩,
          fun hrc _ => ?_⟩
        have := (bm_vote_fcc_ok rc s1 BM_REASON_STEP (-EINVAL) hrc).1
        omega
      · have hres : bm_check_step_charging rc s1 volt
            = { (bm_vote_fcc rc s1 BM_REASON_STEP (-EINVAL)).2 with sc_status := false } := by
          unfold bm_check_step_charging
          rw [if_pos hc, if_pos hsc]
          simp only [hv, if_false]
        have hsl := g2 (by omega)
        rw [hres]
        exact ⟨⟨by show _ = BM_REASON_MAX; rw [f1]; exact hlen, fun _ => hsl, Or.inr hsl⟩,
          fun _ _ => Or.inr ⟨rfl, hsl⟩⟩
    · have hres : bm_check_step_charging rc s1 volt = s1 := by
        unfold bm_check_step_charging
        rw [if_pos hc, if_neg hsc]
      rw [hres]
      exact ⟨hs, fun _ h => h⟩
  · by_cases hcond : s1.sc_status = false ∧ volt ≥ SC_VOLT
    · obtain ⟨f1, _, _, f4, _⟩ := bm_vote_fcc_frame rc s1 BM_REASON_STEP SC_CURRENT
      obtain ⟨g1, g2⟩ := bm_vote_fcc_slot rc s1 BM_REASON_STEP SC_CURRENT h2
      by_cases hv : (bm_vote_fcc rc s1 BM_REASON_STEP SC_CURRENT).1 < 0
      · have hres : bm_check_step_charging rc s1 volt
            = (bm_vote_fcc rc s1 BM_REASON_STEP SC_CURRENT).2 := by
          unfold bm_check_step_charging
          rw [if_neg hc, if_pos hcond]
          simp only [hv, if_true]
        rw [hres]
        refine ⟨⟨by rw [f1]; exact hlen, fun _ => (g1 hv).1, Or.inr (g1 hv).1⟩,
          fun hrc _ => ?_⟩
        have := (bm_vote_fcc_ok rc s1 BM_REASON_STEP SC_CURRENT hrc).1
        omega
      · have hres : bm_check_step_charging rc s1 volt
            = { (bm_vote_fcc rc s1 BM_REASON_STEP SC_CURRENT).2 with sc_status := true } := by
          unfold bm_check_step_charging
          rw [if_neg hc, if_pos hcond]
          simp only [hv, if_false]
        have hsl := g2 (by omega)
        rw [hres]
        exact ⟨⟨by show _ = BM_REASON_MAX; rw [f1]; exact hlen,
          fun h => absurd h (by simp), Or.inl hsl⟩, fun _ _ => Or.inl ⟨rfl, hsl⟩⟩
    · have hres : bm_check_step_charging rc s1 volt = s1 := by
        unfold bm_check_step_charging
        rw [if_neg hc, if_neg hcond]
      rw [hres]
      exact ⟨hs, fun _ h => h⟩

theorem run_step_inv (calls : List StepCall) :
    ∀ s : State, step_inv s →
      step_inv (run_step s calls) ∧
      ((∀ c ∈ calls, 0 ≤ c.hw_rc) → (step_engaged s ∨ step_released s) →
        (step_engaged (run_step s calls) ∨ step_released (run_step s calls))) := by
  induction calls with
  | nil => intro s hs; exact ⟨hs, fun _ h => h⟩
  | cons c cs ih =>
    intro s hs
    have hs1 : step_inv ({ s with chg_present := c.chg_present } : State) := hs
    obtain ⟨hinv, hstrong⟩ := step_call_inv c.hw_rc { s with chg_present := c.chg_present }
      c.volt hs1
    obtain ⟨hinv2, hstrong2⟩ := ih _ hinv
    have hrun : run_step s (c :: cs) = run_step
        (bm_check_step_charging c.hw_rc { s with chg_present := c.chg_present } c.volt) cs := rfl
    rw [hrun]
    refine ⟨hinv2, fun hok hst => ?_⟩
    exact hstrong2 (fun c1 hc1 => hok c1 (List.mem_cons_of_mem c hc1))
      (hstrong (hok c (List.mem_cons_self c cs)) hst)

/-- C20, amended: after every prefix of any sequence of
`bm_check_step_charging` calls from the initial state, with arbitrary
`chg_present` and voltage and whatever return codes the hardware gives, the
Step slot holds `SC_CURRENT = 2400000` or is absent, it is absent whenever
`sc_status` is false, and so `sc_status` is true whenever it holds
`SC_CURRENT`; when no hardware write fails, `sc_status` is true if and only if
the Step slot holds `SC_CURRENT`, and false if and only if the slot is absent. -/
theorem step_latch_vote_consistency (batt_temp chg_present : Int) (calls : List StepCall)
    (n : Nat) :
    ((run_step (bm_init_state batt_temp chg_present) (calls.take n)).sc_status = false →
      (run_step (bm_init_state batt_temp chg_present)
        (calls.take n)).bm_vote_fcc_table.getD BM_REASON_STEP 0 = -EINVAL) ∧
    ((run_step (bm_init_state batt_temp chg_present)
        (calls.take n)).bm_vote_fcc_table.getD BM_REASON_STEP 0 = 2400000 →
      (run_step (bm_init_state batt_temp chg_present) (calls.take n)).sc_status = true) ∧
    ((run_step (bm_init_state batt_temp chg_present)
        (calls.take n)).bm_vote_fcc_table.getD BM_REASON_STEP 0 = 2400000 ∨
      (run_step (bm_init_state batt_temp chg_present)
        (calls.take n)).bm_vote_fcc_table.getD BM_REASON_STEP 0 = -EINVAL) ∧
    ((∀ c ∈ calls.take n, 0 ≤ c.hw_rc) →
      ((run_step (bm_init_state batt_temp chg_present) (calls.take n)).sc_status = true ↔
        (run_step (bm_init_state batt_temp chg_present)
          (calls.take n)).bm_vote_fcc_table.getD BM_REASON_STEP 0 = 2400000) ∧
      ((run_step (bm_init_state batt_temp chg_present) (calls.take n)).sc_status = false ↔
        (run_step (bm_init_state batt_temp chg_present)
          (calls.take n)).bm_vote_fcc_table.getD BM_REASON_STEP 0 = -EINVAL)) := by
  have hinit : step_inv (bm_init_state batt_temp chg_present) :=
    ⟨rfl, fun _ => rfl, Or.inr rfl⟩
  have hrel : step_released (bm_init_state batt_temp chg_present) := ⟨rfl, rfl⟩
  obtain ⟨⟨_, hclear, hslot⟩, hstrong⟩ := run_step_inv (calls.take n) _ hinit
  generalize run_step (bm_init_state batt_temp chg_present) (calls.take n) = t at *
  have hsc_ne : SC_CURRENT ≠ -EINVAL := by decide
  refine ⟨hclear, fun h => ?_, hslot, fun hok => ?_⟩
  · cases hst : t.sc_status with
    | true => rfl
    | false =>
      have := hclear hst
      rw [h] at this
      exact absurd this hsc_ne
  · rcases hstrong hok (Or.inr hrel) with ⟨he1, he2⟩ | ⟨hr1, hr2⟩
    · refine ⟨⟨fun _ => he2, fun _ => he1⟩, ⟨fun h => ?_, fun h => ?_⟩⟩
      · rw [he1] at h; exact absurd h (by decide)
      · rw [he2] at h; exact absurd h hsc_ne
    · refine ⟨⟨fun h => ?_, fun h => ?_⟩, ⟨fun _ => hr2, fun _ => hr1⟩⟩
      · rw [hr1] at h; exact absurd h (by decide)
      · rw [hr2] at h; exact absurd h.symm hsc_ne

theorem step_latch_vote_consistency_witness :
    ((run_step (bm_init_state 250 1)
        ([StepCall.mk 1 4210000 0, StepCall.mk 0 0 0].take 1)).sc_status = true ↔
      (run_step (bm_init_state 250 1)
        ([StepCall.mk 1 4210000 0, StepCall.mk 0 0 0].take 1)).bm_vote_fcc_table.getD
          BM_REASON_STEP 0 = 2400000) ∧
    (run_step (bm_init_state 250 1)
        ([StepCall.mk 1 4210000 0, StepCall.mk 0 0 0].take 2)).sc_status = false :=
  ⟨((step_latch_vote_consistency 250 1 [StepCall.mk 1 4210000 0, StepCall.mk 0 0 0] 1).2.2.2
      (by decide)).1,
    ((step_latch_vote_consistency 250 1 [StepCall.mk 1 4210000 0, StepCall.mk 0 0 0] 2).2.2.2
      (by decide)).2.mpr (by decide)⟩

/-! ## C16: the band walk at `INT_MAX` -/

/-- C16, at the failing input: with the reading `INT_MAX = 2147483647` the walk
from Good indexes `therm_table` at the positions 2, 3, 4 and then 5, which is
outside the table, so `bm_check_therm_charging` has no defined result; from
Cold the five iterations take five band steps and end at index 5, in no band. -/
theorem band_walk_leaves_table_at_int_max :
    therm_walk_indices INT_MAX BM_HEALTH_MAX BM_HEALTH_GOOD = [2, 3, 4, 5] ∧
    therm_table_at 5 = none ∧
    therm_walk INT_MAX BM_HEALTH_MAX BM_HEALTH_GOOD = none ∧
    bm_check_therm_charging 0 0 (bm_init_state INT_MAX 1) = none ∧
    therm_walk_indices INT_MAX BM_HEALTH_MAX BM_HEALTH_HOT = [4, 5] ∧
    therm_walk_indices INT_MAX BM_HEALTH_MAX BM_HEALTH_COLD = [0, 1, 2, 3, 4] ∧
    therm_walk INT_MAX BM_HEALTH_MAX BM_HEALTH_COLD = some 5 ∧
    bm_check_therm_charging 0 0
      { bm_init_state INT_MAX 1 with therm_stat := BM_HEALTH_COLD } = none := by
  decide

theorem therm_walk_indices_succ (temp stat : Int) (n : Nat) (band : bm_therm_table)
    (hband : therm_table_at stat = some band) :
    therm_walk_indices temp (n + 1) stat =
      stat :: (if temp < band.min then therm_walk_indices temp n (stat - 1)
        else if temp ≥ band.max then therm_walk_indices temp n (stat + 1)
        else []) := by
  simp [therm_walk_indices, hband]

theorem therm_walk_indices_down (temp : Int) (ht0 : INT_MIN ≤ temp) (m : Nat) :
    ∀ (n : Nat) (band : bm_therm_table), m ≤ 4 → m ≤ n →
      therm_table_at (m : Int) = some band → temp < band.max →
      (∀ i ∈ therm_walk_indices temp (n + 1) (m : Int), 0 ≤ i ∧ i ≤ (m : Int)) ∧
      (therm_walk_indices temp (n + 1) (m : Int)).length ≤ m + 1 := by
  induction m with
  | zero =>
    intro n band _ _ hband hmax
    have hb : band = { min := INT_MIN, max := 20, cur := 0 } := by
      have := therm_table_at_cold
      rw [show ((0 : Nat) : Int) = 0 from rfl] at hband
      rw [hband] at this
      exact Option.some.inj this
    have h1 : ¬ temp < band.min := by rw [hb]; exact not_lt.mpr ht0
    have h2 : ¬ temp ≥ band.max := by omega
    rw [therm_walk_indices_succ temp _ n band hband, if_neg h1, if_neg h2]
    simp
  | succ k ih =>
    intro n band hk4 hkn hband hmax
    rw [therm_walk_indices_succ temp _ n band hband]
    by_cases hlow : temp < band.min
    · obtain ⟨lo, hi, hlo, hhi, hov⟩ := therm_table_overlap k (by omega)
      have hcast : ((k + 1 : Nat) : Int) = (k : Int) + 1 := by push_cast; rfl
      rw [hcast] at hband
      have hbe : hi = band := by rw [hhi] at hband; exact Option.some.inj hband
      obtain ⟨n1, rfl⟩ : ∃ n1, n = n1 + 1 := ⟨n - 1, by omega⟩
      obtain ⟨h1, h2⟩ := ih n1 lo (by omega) (by omega) hlo (by rw [← hbe] at hlow; omega)
      rw [if_pos hlow]
      have hsub : ((k + 1 : Nat) : Int) - 1 = (k : Int) := by omega
      rw [hsub]
      refine ⟨fun i hi => ?_, by simp only [List.length_cons]; omega⟩
      rcases List.mem_cons.mp hi with rfl | hmem
      · omega
      · have := h1 i hmem
        omega
    · have h2 : ¬ temp ≥ band.max := by omega
      rw [if_neg hlow, if_neg h2]
      refine ⟨fun i hi => ?_, by simp⟩
      rw [List.mem_singleton] at hi
      omega

theorem therm_walk_indices_up (temp : Int) (ht1 : temp < INT_MAX) (d : Nat) :
    ∀ (n m : Nat) (band : bm_therm_table), m + d = 4 → d ≤ n →
      therm_table_at (m : Int) = some band → band.min ≤ temp →
      (∀ i ∈ therm_walk_indices temp (n + 1) (m : Int), (m : Int) ≤ i ∧ i ≤ 4) ∧
      (therm_walk_indices temp (n + 1) (m : Int)).length ≤ d + 1 := by
  induction d with
  | zero =>
    intro n m band hm _ hband hmin
    have hm4 : m = 4 := by omega
    subst hm4
    have hb : band = { min := 530, max := INT_MAX, cur := 0 } := by
      have := therm_table_at_hot
      rw [show ((4 : Nat) : Int) = 4 from rfl] at hband
      rw [hband] at this
      exact Option.some.inj this
    have h1 : ¬ temp < band.min := by omega
    have h2 : ¬ temp ≥ band.max := by rw [hb]; exact not_le.mpr ht1
    rw [therm_walk_indices_succ temp _ n band hband, if_neg h1, if_neg h2]
    simp
  | succ k ih =>
    intro n m band hm hkn hband hmin
    rw [therm_walk_indices_succ temp _ n band hband]
    have hnl : ¬ temp < band.min := by omega
    by_cases hhigh : temp ≥ band.max
    · obtain ⟨lo, hi, hlo, hhi, hov⟩ := therm_table_overlap m (by omega)
      have hbe : lo = band := by rw [hlo] at hband; exact Option.some.inj hband
      obtain ⟨n1, rfl⟩ : ∃ n1, n = n1 + 1 := ⟨n - 1, by omega⟩
      have hcast : ((m + 1 : Nat) : Int) = (m : Int) + 1 := by push_cast; rfl
      obtain ⟨h1, h2⟩ := ih n1 (m + 1) hi (by omega) (by omega)
        (by rw [hcast]; exact hhi) (by rw [← hbe] at hhigh; omega)
      rw [if_neg hnl, if_pos hhigh, ← hcast]
      refine ⟨fun i hi => ?_, by simp only [List.length_cons]; omega⟩
      rcases List.mem_cons.mp hi with rfl | hmem
      · omega
      · have := h1 i hmem
        omega
    · rw [if_neg hnl, if_neg hhigh]
      refine ⟨fun i hi => ?_, by simp⟩
      rw [List.mem_singleton] at hi
      omega

/-- Below `INT_MAX` the walk is safe: for a stored band in Cold..Hot and a
temperature in `[INT_MIN, INT_MAX)` the loop indexes `therm_table` at most five
times, hence takes at most four band steps, and only at positions 0..4. -/
theorem therm_walk_indices_safe (temp stat : Int) (hs0 : 0 ≤ stat) (hs4 : stat ≤ 4)
    (ht0 : INT_MIN ≤ temp) (ht1 : temp < INT_MAX) :
    (∀ i ∈ therm_walk_indices temp BM_HEALTH_MAX stat, 0 ≤ i ∧ i ≤ 4) ∧
    (therm_walk_indices temp BM_HEALTH_MAX stat).length ≤ 5 := by
  obtain ⟨m, rfl⟩ : ∃ m : Nat, stat = (m : Int) := ⟨stat.toNat, by omega⟩
  have hm4 : m ≤ 4 := by omega
  have hex : ∃ band, therm_table_at (m : Int) = some band := by
    have h : m = 0 ∨ m = 1 ∨ m = 2 ∨ m = 3 ∨ m = 4 := by omega
    rcases h with rfl | rfl | rfl | rfl | rfl
    · exact ⟨_, therm_table_at_cold⟩
    · exact ⟨_, therm_table_at_cool⟩
    · exact ⟨_, therm_table_at_good⟩
    · exact ⟨_, therm_table_at_warm⟩
    · exact ⟨_, therm_table_at_hot⟩
  obtain ⟨band, hband⟩ := hex
  by_cases hhigh : temp < band.max
  · obtain ⟨h1, h2⟩ := therm_walk_indices_down temp ht0 m 4 band hm4 hm4 hband hhigh
    refine ⟨fun i hi => ?_, by show (therm_walk_indices temp (4 + 1) (m : Int)).length ≤ 5; omega⟩
    have := h1 i hi
    omega
  · have hmin : band.min ≤ temp := by
      rcases therm_table_at_some (m : Int) band hband with
        ⟨_, h⟩ | ⟨_, h⟩ | ⟨_, h⟩ | ⟨_, h⟩ | ⟨_, h⟩ <;> rw [h] at hhigh ⊢ <;>
        simp only [INT_MAX, INT_MIN] at * <;> omega
    obtain ⟨h1, h2⟩ := therm_walk_indices_up temp ht1 (4 - m) 4 m band (by omega) (by omega)
      hband hmin
    refine ⟨fun i hi => ?_, by show (therm_walk_indices temp (4 + 1) (m : Int)).length ≤ 5; omega⟩
    have := h1 i hi
    omega

end LgeBattery
